import Mathlib

set_option maxRecDepth 100000

/-!
Shallow embedding of the `steg` steganography codec (src/lib.rs,
src/encoder.rs, src/decoder.rs).  Bytes are modelled as `Nat`; Rust
fixed-width overflow is made explicit with `% 2^w` wherever it can occur.
Carrier arrays and byte streams are `List Nat`.
-/

namespace Steg

/-- `const HEADER_LENGTH: usize = 40` (src/lib.rs). -/
def HEADER_LENGTH : Nat := 40

/-- `const VERSION: u8 = 0x1` (src/lib.rs). -/
def VERSION : Nat := 0x1

/-- `const MAGIC: u16 = 0xBEAD` (src/lib.rs). -/
def MAGIC : Nat := 0xBEAD

/-- `enum ByteSplitGranularity` (src/lib.rs). -/
inductive ByteSplitGranularity where
  | FourBits
  | TwoBits
  | OneBit
deriving DecidableEq, Repr

/-- `enum CompressInput` (src/lib.rs). -/
inductive CompressInput where
  | NoCompress
  | Gzip
deriving DecidableEq, Repr

/-- Structured error values mirroring the `String` / `io::Error` messages the
source produces; each constructor carries exactly the data interpolated into
the corresponding message. -/
inductive StegError where
  /-- "Unsupported value for ByteSplitGranularity" -/
  | unsupportedGranularity
  /-- "Unsupported value for CompressInput" -/
  | unsupportedCompress
  /-- "invalid magic: {:#x}" -/
  | invalidMagic (m : Nat)
  /-- "unsupported version: {:#x}" -/
  | unsupportedVersion (v : Nat)
  /-- "cover image is too small for input ... cover image size: {}, encoded_data_size: {} ..." -/
  | capacityError (cover_image_size input_data_encoded_size : Nat)
  /-- "validation failure: image header is not present" -/
  | headerNotPresent
  /-- "validation failure: image data is too small/does not match bytes count in header" -/
  | dataTooSmall
  /-- "validation failure: data hash {} does not match hash printed in header {}" -/
  | hashMismatch (computed stored : Nat)
  /-- an error propagated from the external decompression collaborator -/
  | decompressFailure
deriving DecidableEq, Repr

instance {ε α : Type} [DecidableEq ε] [DecidableEq α] : DecidableEq (Except ε α) :=
  fun a b =>
    match a, b with
    | .ok x, .ok y =>
      if h : x = y then isTrue (by rw [h])
      else isFalse (by intro hh; cases hh; exact h rfl)
    | .error x, .error y =>
      if h : x = y then isTrue (by rw [h])
      else isFalse (by intro hh; cases hh; exact h rfl)
    | .ok _, .error _ => isFalse (by intro hh; cases hh)
    | .error _, .ok _ => isFalse (by intro hh; cases hh)

/-- `impl TryFrom<u8> for ByteSplitGranularity` (src/lib.rs). -/
def ByteSplitGranularity.tryFrom (v : Nat) : Except StegError ByteSplitGranularity :=
  match v with
  | 4 => .ok .FourBits
  | 2 => .ok .TwoBits
  | 1 => .ok .OneBit
  | _ => .error .unsupportedGranularity

/-- `impl Into<u8> for ByteSplitGranularity` (src/lib.rs). -/
def ByteSplitGranularity.toU8 : ByteSplitGranularity → Nat
  | .FourBits => 4
  | .TwoBits => 2
  | .OneBit => 1

/-- `impl TryFrom<u8> for CompressInput` (src/lib.rs). -/
def CompressInput.tryFrom (v : Nat) : Except StegError CompressInput :=
  match v with
  | 0 => .ok .NoCompress
  | 1 => .ok .Gzip
  | _ => .error .unsupportedCompress

/-- `impl Into<u8> for CompressInput` (src/lib.rs). -/
def CompressInput.toU8 : CompressInput → Nat
  | .NoCompress => 0
  | .Gzip => 1

/-- `byte_encodings::split_byte` (src/lib.rs). -/
def split_byte (granularity : ByteSplitGranularity) (byte : Nat) : List Nat :=
  match granularity with
  | .FourBits => [byte >>> 4, byte &&& 0x0F]
  | .TwoBits => [(byte >>> 6) &&& 0x03, (byte >>> 4) &&& 0x03,
                 (byte >>> 2) &&& 0x03, byte &&& 0x03]
  | .OneBit => [(byte >>> 7) &&& 0x01, (byte >>> 6) &&& 0x01,
                (byte >>> 5) &&& 0x01, (byte >>> 4) &&& 0x01,
                (byte >>> 3) &&& 0x01, (byte >>> 2) &&& 0x01,
                (byte >>> 1) &&& 0x01, byte &&& 0x01]

/-- `byte_encodings::zip_bytes` (src/lib.rs). -/
def zip_bytes (granularity : ByteSplitGranularity) (left right : Nat) : Nat :=
  match granularity with
  | .FourBits => (left &&& 0xF0) ||| (right &&& 0x0F)
  | .TwoBits => (left &&& 0xFC) ||| (right &&& 0x03)
  | .OneBit => (left &&& 0xFE) ||| (right &&& 0x01)

/-- `byte_encodings::merge_bytes` (src/lib.rs).  Out-of-range indexing would
panic in Rust; callers always supply enough sub-codes, and `getD _ 0` keeps
the model total.  The Rust `u8` shifts wrap mod 256, but every shifted term is
immediately masked below 0x100, so the wrap never shows. -/
def merge_bytes (granularity : ByteSplitGranularity) (bytes : List Nat) : Nat :=
  match granularity with
  | .FourBits => ((bytes.getD 0 0 <<< 4) &&& 0xF0) ||| (bytes.getD 1 0 &&& 0x0F)
  | .TwoBits =>
      ((bytes.getD 0 0 <<< 6) &&& 0xC0) ||| ((bytes.getD 1 0 <<< 4) &&& 0x30) |||
      ((bytes.getD 2 0 <<< 2) &&& 0x0C) ||| (bytes.getD 3 0 &&& 0x03)
  | .OneBit =>
      ((bytes.getD 0 0 <<< 7) &&& 0x80) ||| ((bytes.getD 1 0 <<< 6) &&& 0x40) |||
      ((bytes.getD 2 0 <<< 5) &&& 0x20) ||| ((bytes.getD 3 0 <<< 4) &&& 0x10) |||
      ((bytes.getD 4 0 <<< 3) &&& 0x08) ||| ((bytes.getD 5 0 <<< 2) &&& 0x04) |||
      ((bytes.getD 6 0 <<< 1) &&& 0x02) ||| (bytes.getD 7 0 &&& 0x01)

/-- `BytesZipper::merge_into` (src/lib.rs): overwrites the first
`min |dest| |src|` entries of `dest` with `zip_bytes granularity dest_i src_i`
and leaves the rest of `dest` unchanged. -/
def BytesZipper.merge_into (dest src : List Nat)
    (granularity : ByteSplitGranularity) : List Nat :=
  (List.zipWith (fun l r => zip_bytes granularity l r) dest src) ++
    dest.drop src.length

/-- `impl From<u64> for NibbleNumber` (src/lib.rs): one 4-bit nibble of the
value per byte, most significant nibble first. -/
def NibbleNumber.fromU64 (value : Nat) : List Nat :=
  [(value &&& 0xF000000000000000) >>> 60,
   (value &&& 0x0F00000000000000) >>> 56,
   (value &&& 0x00F0000000000000) >>> 52,
   (value &&& 0x000F000000000000) >>> 48,
   (value &&& 0x0000F00000000000) >>> 44,
   (value &&& 0x00000F0000000000) >>> 40,
   (value &&& 0x000000F000000000) >>> 36,
   (value &&& 0x0000000F00000000) >>> 32,
   (value &&& 0x00000000F0000000) >>> 28,
   (value &&& 0x000000000F000000) >>> 24,
   (value &&& 0x0000000000F00000) >>> 20,
   (value &&& 0x00000000000F0000) >>> 16,
   (value &&& 0x000000000000F000) >>> 12,
   (value &&& 0x0000000000000F00) >>> 8,
   (value &&& 0x00000000000000F0) >>> 4,
   value &&& 0x000000000000000F]

/-- `impl Into<u64> for NibbleNumber` (src/lib.rs).  The entries are `u8`
values (< 256), so of the sixteen shifted terms only `data[0] <<< 60` can
exceed 64 bits; Rust's wrapping `u64` shift is the explicit `% 2^64`. -/
def NibbleNumber.toU64 (data : List Nat) : Nat :=
  ((data.getD 0 0 <<< 60) % 2 ^ 64) |||
  (data.getD 1 0 <<< 56) ||| (data.getD 2 0 <<< 52) ||| (data.getD 3 0 <<< 48) |||
  (data.getD 4 0 <<< 44) ||| (data.getD 5 0 <<< 40) ||| (data.getD 6 0 <<< 36) |||
  (data.getD 7 0 <<< 32) ||| (data.getD 8 0 <<< 28) ||| (data.getD 9 0 <<< 24) |||
  (data.getD 10 0 <<< 20) ||| (data.getD 11 0 <<< 16) ||| (data.getD 12 0 <<< 12) |||
  (data.getD 13 0 <<< 8) ||| (data.getD 14 0 <<< 4) ||| data.getD 15 0

/-- `struct DataHeader` (src/lib.rs); `magic : u16`, `version : u8`,
`bytes_count data_hash : u64`. -/
structure DataHeader where
  magic : Nat
  version : Nat
  bytes_count : Nat
  data_hash : Nat
  compress_input : CompressInput
  granularity : ByteSplitGranularity
deriving DecidableEq, Repr

/-- `DataHeader::new` (src/lib.rs). -/
def DataHeader.new (compress_input : CompressInput)
    (granularity : ByteSplitGranularity) : DataHeader :=
  { magic := MAGIC, version := VERSION, bytes_count := 0, data_hash := 0,
    compress_input, granularity }

/-- `impl Into<[u8; HEADER_LENGTH]> for DataHeader` (src/lib.rs): the 40-byte
serialized header, one nibble per byte.  `magic as u64` and `version as u64`
are exact casts (`u16`/`u8` widen losslessly). -/
def DataHeader.serialize (h : DataHeader) : List Nat :=
  let magic := NibbleNumber.fromU64 h.magic
  let version := NibbleNumber.fromU64 h.version
  let bytes_count := NibbleNumber.fromU64 h.bytes_count
  let hash := NibbleNumber.fromU64 h.data_hash
  let compress_input := NibbleNumber.fromU64 h.compress_input.toU8
  let granularity := NibbleNumber.fromU64 h.granularity.toU8
  magic.drop 12 ++ version.drop 14 ++ bytes_count ++ hash ++
    compress_input.drop 15 ++ granularity.drop 15

/-- `impl TryFrom<[u8; HEADER_LENGTH]> for DataHeader` (src/lib.rs).  The
`clone_from_slice` of `data[a..b]` into the tail of a zeroed 16-byte array is
`List.replicate _ 0 ++ (data.drop a).take (b-a)`; the `as u16` / `as u8`
narrowing casts are `% 2^16` / `% 2^8`. -/
def DataHeader.tryFrom (data : List Nat) : Except StegError DataHeader := do
  let magic_expanded := List.replicate 12 0 ++ data.take 4
  let magic := NibbleNumber.toU64 magic_expanded % 2 ^ 16
  if magic ≠ MAGIC then
    throw (.invalidMagic magic)
  let version_expanded := List.replicate 14 0 ++ ((data.drop 4).take 2)
  let version := NibbleNumber.toU64 version_expanded % 2 ^ 8
  if version ≠ VERSION then
    throw (.unsupportedVersion version)
  let bytes_count := NibbleNumber.toU64 ((data.drop 6).take 16)
  let data_hash := NibbleNumber.toU64 ((data.drop 22).take 16)
  let compressed_expanded := List.replicate 15 0 ++ ((data.drop 38).take 1)
  let compress_input ← CompressInput.tryFrom (NibbleNumber.toU64 compressed_expanded % 2 ^ 8)
  let granularity_expanded := List.replicate 15 0 ++ ((data.drop 39).take 1)
  let granularity ← ByteSplitGranularity.tryFrom (NibbleNumber.toU64 granularity_expanded % 2 ^ 8)
  return { magic, version, bytes_count, data_hash, compress_input, granularity }

/-- Modelled from the spec: the running order-sensitive 64-bit checksum
(`std::collections::hash_map::DefaultHasher`, fed one byte at a time with
`write_u8` and read out with `finish`) is Rust standard-library code, not part
of this repository.  It is modelled as a 64-bit multiply–accumulate digest of
the byte stream in order, matching the spec's "non-cryptographic hash of the
... byte stream in order". -/
def dhash (bytes : List Nat) : Nat :=
  bytes.foldl (fun state b => (state * 31 + b) % 2 ^ 64) 0

/-- Rust slice `chunks(k)`: consecutive chunks of size `k`, last one possibly
shorter.  Fuel-based structural recursion (`fuel ≥ length` suffices for any
`k > 0`) so the kernel can evaluate it. -/
def chunksOfAux : Nat → Nat → List Nat → List (List Nat)
  | 0, _, _ => []
  | _, _, [] => []
  | fuel + 1, k, x :: xs => (x :: xs).take k :: chunksOfAux fuel k ((x :: xs).drop k)

/-- Rust slice `chunks(k)` over a list. -/
def chunksOf (k : Nat) (l : List Nat) : List (List Nat) :=
  chunksOfAux l.length k l

/-- `struct EncodeOutput` (src/encoder.rs). -/
structure EncodeOutput where
  header : List Nat
  data : List Nat
deriving DecidableEq, Repr

/-- `EncodeOutput::len` (src/encoder.rs). -/
def EncodeOutput.len (e : EncodeOutput) : Nat :=
  e.header.length + e.data.length

/-- `struct Encoder` (src/encoder.rs). -/
structure Encoder where
  compress_input : CompressInput
  byte_split_level : ByteSplitGranularity

/-- `Encoder::new` (src/encoder.rs). -/
def Encoder.new (compress_input : CompressInput)
    (byte_split_level : ByteSplitGranularity) : Encoder :=
  { compress_input, byte_split_level }

/-- The `bytes_count` accumulator in `Encoder::encode_data` (src/encoder.rs)
is an inferred `i32`: `let mut bytes_count = 0` is only ever incremented and
finally cast with `as u64`, so inference falls back to `i32`.  Counting n
input bytes leaves the two's-complement value n mod 2^32 in it (release
builds wrap; debug builds panic at the 2^31-st increment), and `as u64`
sign-extends it.  This is the resulting stored 64-bit count under release
(wrapping) semantics; it equals n exactly when n < 2^31. -/
def i32CountAsU64 (n : Nat) : Nat :=
  if n % 2 ^ 32 < 2 ^ 31 then n % 2 ^ 32 else n % 2 ^ 32 + (2 ^ 64 - 2 ^ 32)

/-- `Encoder::encode_data` (src/encoder.rs): splits each input byte in order,
hashes each byte into the running checksum, counts the bytes, and serializes
the resulting header.  The byte counter is an inferred `i32` later cast with
`as u64`, so the stored count is `i32CountAsU64 input.length`. -/
def Encoder.encode_data (e : Encoder) (input : List Nat) : EncodeOutput :=
  let out := (input.map (fun b => split_byte e.byte_split_level b)).flatten
  let header : DataHeader :=
    { DataHeader.new e.compress_input e.byte_split_level with
      bytes_count := i32CountAsU64 input.length
      data_hash := dhash input
      compress_input := e.compress_input }
  { header := header.serialize, data := out }

/-- `Encoder::check_utilisation` (src/encoder.rs): `Ok` iff the encoded
header+data fit in the cover; otherwise the capacity error carrying the two
sizes interpolated into its message (the message's third datum, the
percentage utilisation, is the `f64` ratio of exactly these two sizes). -/
def Encoder.check_utilisation (e : Encoder) (cover_image : List Nat)
    (encode_output : EncodeOutput) : Except StegError Unit :=
  if encode_output.len ≤ cover_image.length then .ok ()
  else .error (.capacityError cover_image.length encode_output.len)

/-- `Encoder::merge_into` (src/encoder.rs): zips the 40 header bytes into
`dest[0..40]` at `FourBits`, and the payload sub-codes into
`dest[40..40+|data|]` at the configured granularity.  The two mutated slices
are disjoint; `dest` must be at least `40 + |data|` long (Rust slicing would
panic otherwise; `encode` checks capacity first). -/
def Encoder.merge_into (e : Encoder) (dest : List Nat) (src : EncodeOutput) :
    List Nat :=
  BytesZipper.merge_into (dest.take HEADER_LENGTH) src.header .FourBits ++
    BytesZipper.merge_into ((dest.drop HEADER_LENGTH).take src.data.length)
      src.data e.byte_split_level ++
    dest.drop (HEADER_LENGTH + src.data.length)

/-- `Encoder::encode` (src/encoder.rs), at the carrier-array level: the PNG
container codec is an external collaborator (spec §1, §6), so the model takes
the flat carrier byte array (`cover_image_bytes` in the source) directly and
returns the mutated array instead of re-encoding a PNG.  The gzip compressor
(`Encoder::compress`, a thin wrapper around the external `flate2` library) is
likewise external and passed in as `compress`. -/
def Encoder.encode (e : Encoder) (compress : List Nat → List Nat)
    (cover_image_bytes : List Nat) (input_data : List Nat) :
    Except StegError (List Nat) := do
  let encode_output :=
    if e.compress_input = CompressInput.Gzip then
      e.encode_data (compress input_data)
    else
      e.encode_data input_data
  let _ ← e.check_utilisation cover_image_bytes encode_output
  return e.merge_into cover_image_bytes encode_output

/-- The byte stream that `Encoder::encode` actually feeds to `encode_data`:
the payload itself, or its compression when the Gzip mode is configured. -/
def payloadStream (c : CompressInput) (compress : List Nat → List Nat)
    (input_data : List Nat) : List Nat :=
  if c = CompressInput.Gzip then compress input_data else input_data

/-- `Decoder::extract_header` (src/decoder.rs): masks every byte of the
40-byte header region to its low 4 bits, then parses. -/
def Decoder.extract_header (input : List Nat) : Except StegError DataHeader :=
  DataHeader.tryFrom (input.map (fun x => x &&& 0x0F))

/-- `Decoder::decode_data` (src/decoder.rs): walk `data` in chunks of
`8/depth`, take `bytes_count` chunks, merge each back into a byte.  The
source streams each merged byte into a caller closure (hashing and
accumulating/decompressing); the model returns the merged byte sequence and
`uncover_from` applies those effects to it.  `merge_bytes` in the source
indexes the fixed positions 0..chunk_size of its slice and panics when the
final taken chunk is shorter (its Lean totalization pads with 0), so the
model returns `none` -- the panic -- exactly when a taken chunk is short. -/
def Decoder.decode_data (data : List Nat) (header : DataHeader) :
    Option (List Nat) :=
  let chunk_size : Nat :=
    match header.granularity with
    | .FourBits => 2
    | .TwoBits => 4
    | .OneBit => 8
  let chunks := (chunksOf chunk_size data).take header.bytes_count
  if chunks.all (fun c => c.length == chunk_size) then
    some (chunks.map (fun chunk => merge_bytes header.granularity chunk))
  else none

/-- `Decoder::uncover_from` (src/decoder.rs).  The gzip decompressor
(`flate2`'s `GzDecoder`, external per spec §6) is passed in as `decompress`;
as in the source, a decompression failure surfaces before the checksum
comparison, and the checksum is computed over the recovered
(pre-decompression) byte stream.  `minimum_size` is the source's
`header.bytes_count as usize * k`, a `usize` product that wraps modulo 2^64
in release builds (debug builds panic on the overflowing multiplication), so
the model multiplies modulo 2^64.  The result is `none` for a panic (a short
final chunk reaching `merge_bytes` after a wrapped size check) and
`some r` for a normal return `r`. -/
def Decoder.uncover_from (decompress : List Nat → Except StegError (List Nat))
    (input : List Nat) : Option (Except StegError (List Nat)) :=
  if input.length < HEADER_LENGTH then some (.error .headerNotPresent)
  else
    match Decoder.extract_header (input.take HEADER_LENGTH) with
    | .error e => some (.error e)
    | .ok header =>
      let minimum_size :=
        (match header.granularity with
          | .FourBits => header.bytes_count * 2
          | .TwoBits => header.bytes_count * 4
          | .OneBit => header.bytes_count * 8) % 2 ^ 64
      let remaining := input.drop HEADER_LENGTH
      if remaining.length < minimum_size then some (.error .dataTooSmall)
      else
        match Decoder.decode_data remaining header with
        | none => none
        | some recovered =>
          some (do
            let data ←
              if header.compress_input = CompressInput.Gzip then
                decompress recovered
              else pure recovered
            let hash := dhash recovered
            if hash ≠ header.data_hash then
              throw (.hashMismatch hash header.data_hash)
            else
              return data)

/-! ### Bitwise helper lemmas -/

/-- Extracting an aligned 4-bit field with mask-then-shift is `div`-then-`mod`. -/
theorem and_mask_shiftRight (v s : Nat) :
    (v &&& (15 <<< s)) >>> s = v / 2 ^ s % 16 := by
  apply Nat.eq_of_testBit_eq
  intro i
  rw [show (16 : Nat) = 2 ^ 4 from rfl, show (15 : Nat) = 2 ^ 4 - 1 from rfl,
    ← Nat.shiftRight_eq_div_pow]
  simp only [Nat.testBit_shiftRight, Nat.testBit_and, Nat.testBit_shiftLeft,
    Nat.testBit_mod_two_pow, Nat.testBit_two_pow_sub_one, Nat.add_sub_cancel_left,
    Nat.le_add_right]
  exact Bool.and_comm _ _

/-- A shift distributes out of an AND of two like-shifted values. -/
theorem shiftLeft_and_shiftLeft (x t s : Nat) :
    (x <<< s) &&& (t <<< s) = (x &&& t) <<< s := by
  apply Nat.eq_of_testBit_eq
  intro i
  simp only [Nat.testBit_and, Nat.testBit_shiftLeft]
  by_cases h : s ≤ i <;> simp [h]

/-- Masking with 15 is reduction mod 16. -/
theorem and_fifteen (v : Nat) : v &&& 15 = v % 16 := by
  rw [show (15 : Nat) = 2 ^ 4 - 1 from rfl, Nat.and_pow_two_sub_one_eq_mod]

/-- ORing a shifted value onto a remainder strictly below the shift is addition. -/
theorem or_mul_add (a s b : Nat) (h : b < 2 ^ s) : a * 2 ^ s ||| b = a * 2 ^ s + b := by
  rw [Nat.mul_comm a (2 ^ s)]
  exact (Nat.mul_add_lt_is_or h a).symm

/-! ### Nibble codec lemmas -/

/-- The sixteen nibbles of `v`, most significant first, as `div`/`mod`. -/
theorem fromU64_eq (v : Nat) : NibbleNumber.fromU64 v =
    [v / 2 ^ 60 % 16, v / 2 ^ 56 % 16, v / 2 ^ 52 % 16, v / 2 ^ 48 % 16,
     v / 2 ^ 44 % 16, v / 2 ^ 40 % 16, v / 2 ^ 36 % 16, v / 2 ^ 32 % 16,
     v / 2 ^ 28 % 16, v / 2 ^ 24 % 16, v / 2 ^ 20 % 16, v / 2 ^ 16 % 16,
     v / 2 ^ 12 % 16, v / 2 ^ 8 % 16, v / 2 ^ 4 % 16, v % 16] := by
  unfold NibbleNumber.fromU64
  rw [show (0xF000000000000000 : Nat) = 15 <<< 60 from rfl,
    show (0x0F00000000000000 : Nat) = 15 <<< 56 from rfl,
    show (0x00F0000000000000 : Nat) = 15 <<< 52 from rfl,
    show (0x000F000000000000 : Nat) = 15 <<< 48 from rfl,
    show (0x0000F00000000000 : Nat) = 15 <<< 44 from rfl,
    show (0x00000F0000000000 : Nat) = 15 <<< 40 from rfl,
    show (0x000000F000000000 : Nat) = 15 <<< 36 from rfl,
    show (0x0000000F00000000 : Nat) = 15 <<< 32 from rfl,
    show (0x00000000F0000000 : Nat) = 15 <<< 28 from rfl,
    show (0x000000000F000000 : Nat) = 15 <<< 24 from rfl,
    show (0x0000000000F00000 : Nat) = 15 <<< 20 from rfl,
    show (0x00000000000F0000 : Nat) = 15 <<< 16 from rfl,
    show (0x000000000000F000 : Nat) = 15 <<< 12 from rfl,
    show (0x0000000000000F00 : Nat) = 15 <<< 8 from rfl,
    show (0x00000000000000F0 : Nat) = 15 <<< 4 from rfl,
    and_mask_shiftRight, and_mask_shiftRight, and_mask_shiftRight, and_mask_shiftRight,
    and_mask_shiftRight, and_mask_shiftRight, and_mask_shiftRight, and_mask_shiftRight,
    and_mask_shiftRight, and_mask_shiftRight, and_mask_shiftRight, and_mask_shiftRight,
    and_mask_shiftRight, and_mask_shiftRight, and_mask_shiftRight, and_fifteen]

/-- Every nibble produced by `fromU64` is below 16. -/
theorem fromU64_lt16 (v : Nat) : ∀ x ∈ NibbleNumber.fromU64 v, x < 16 := by
  rw [fromU64_eq]
  intro x hx
  simp only [List.mem_cons, List.not_mem_nil, or_false] at hx
  rcases hx with h | h | h | h | h | h | h | h | h | h | h | h | h | h | h | h <;>
    subst h <;> omega

/-- `toU64` on a sixteen-element list, unfolded. -/
theorem toU64_explicit (n0 n1 n2 n3 n4 n5 n6 n7 n8 n9 n10 n11 n12 n13 n14 n15 : Nat) :
    NibbleNumber.toU64 [n0, n1, n2, n3, n4, n5, n6, n7, n8, n9, n10, n11, n12, n13, n14, n15] =
    ((n0 <<< 60) % 2 ^ 64) ||| (n1 <<< 56) ||| (n2 <<< 52) ||| (n3 <<< 48) |||
    (n4 <<< 44) ||| (n5 <<< 40) ||| (n6 <<< 36) ||| (n7 <<< 32) ||| (n8 <<< 28) |||
    (n9 <<< 24) ||| (n10 <<< 20) ||| (n11 <<< 16) ||| (n12 <<< 12) ||| (n13 <<< 8) |||
    (n14 <<< 4) ||| n15 := rfl

/-- A value stored in the last nibble slot alone reads back unchanged. -/
theorem toU64_pad15 (x : Nat) : NibbleNumber.toU64 (List.replicate 15 0 ++ [x]) = x := by
  rw [show (List.replicate 15 0 ++ [x] : List Nat) =
      [0, 0, 0, 0, 0, 0, 0, 0, 0, 0, 0, 0, 0, 0, 0, x] from rfl, toU64_explicit]
  simp

/-- The nibble codec round-trips every 64-bit value. -/
theorem toU64_fromU64 (v : Nat) (hv : v < 2 ^ 64) :
    NibbleNumber.toU64 (NibbleNumber.fromU64 v) = v := by
  rw [fromU64_eq, toU64_explicit]
  simp only [Nat.shiftLeft_eq]
  rw [Nat.mod_eq_of_lt (show v / 2 ^ 60 % 16 * 2 ^ 60 < 2 ^ 64 by omega)]
  simp only [Nat.or_assoc]
  rw [or_mul_add (v / 2 ^ 4 % 16) 4 (v % 16) (by omega),
    show v / 2 ^ 4 % 16 * 2 ^ 4 + v % 16 = v % 2 ^ 8 by omega,
    or_mul_add (v / 2 ^ 8 % 16) 8 (v % 2 ^ 8) (by omega),
    show v / 2 ^ 8 % 16 * 2 ^ 8 + v % 2 ^ 8 = v % 2 ^ 12 by omega,
    or_mul_add (v / 2 ^ 12 % 16) 12 (v % 2 ^ 12) (by omega),
    show v / 2 ^ 12 % 16 * 2 ^ 12 + v % 2 ^ 12 = v % 2 ^ 16 by omega,
    or_mul_add (v / 2 ^ 16 % 16) 16 (v % 2 ^ 16) (by omega),
    show v / 2 ^ 16 % 16 * 2 ^ 16 + v % 2 ^ 16 = v % 2 ^ 20 by omega,
    or_mul_add (v / 2 ^ 20 % 16) 20 (v % 2 ^ 20) (by omega),
    show v / 2 ^ 20 % 16 * 2 ^ 20 + v % 2 ^ 20 = v % 2 ^ 24 by omega,
    or_mul_add (v / 2 ^ 24 % 16) 24 (v % 2 ^ 24) (by omega),
    show v / 2 ^ 24 % 16 * 2 ^ 24 + v % 2 ^ 24 = v % 2 ^ 28 by omega,
    or_mul_add (v / 2 ^ 28 % 16) 28 (v % 2 ^ 28) (by omega),
    show v / 2 ^ 28 % 16 * 2 ^ 28 + v % 2 ^ 28 = v % 2 ^ 32 by omega,
    or_mul_add (v / 2 ^ 32 % 16) 32 (v % 2 ^ 32) (by omega),
    show v / 2 ^ 32 % 16 * 2 ^ 32 + v % 2 ^ 32 = v % 2 ^ 36 by omega,
    or_mul_add (v / 2 ^ 36 % 16) 36 (v % 2 ^ 36) (by omega),
    show v / 2 ^ 36 % 16 * 2 ^ 36 + v % 2 ^ 36 = v % 2 ^ 40 by omega,
    or_mul_add (v / 2 ^ 40 % 16) 40 (v % 2 ^ 40) (by omega),
    show v / 2 ^ 40 % 16 * 2 ^ 40 + v % 2 ^ 40 = v % 2 ^ 44 by omega,
    or_mul_add (v / 2 ^ 44 % 16) 44 (v % 2 ^ 44) (by omega),
    show v / 2 ^ 44 % 16 * 2 ^ 44 + v % 2 ^ 44 = v % 2 ^ 48 by omega,
    or_mul_add (v / 2 ^ 48 % 16) 48 (v % 2 ^ 48) (by omega),
    show v / 2 ^ 48 % 16 * 2 ^ 48 + v % 2 ^ 48 = v % 2 ^ 52 by omega,
    or_mul_add (v / 2 ^ 52 % 16) 52 (v % 2 ^ 52) (by omega),
    show v / 2 ^ 52 % 16 * 2 ^ 52 + v % 2 ^ 52 = v % 2 ^ 56 by omega,
    or_mul_add (v / 2 ^ 56 % 16) 56 (v % 2 ^ 56) (by omega),
    show v / 2 ^ 56 % 16 * 2 ^ 56 + v % 2 ^ 56 = v % 2 ^ 60 by omega,
    or_mul_add (v / 2 ^ 60 % 16) 60 (v % 2 ^ 60) (by omega),
    show v / 2 ^ 60 % 16 * 2 ^ 60 + v % 2 ^ 60 = v % 2 ^ 64 by omega,
    Nat.mod_eq_of_lt hv]

/-! ### Header serialization lemmas -/

/-- The serialized header of a well-formed `DataHeader`, with the constant
magic and version nibbles evaluated. -/
theorem serialize_mk (bc dh : Nat) (c : CompressInput) (g : ByteSplitGranularity) :
    DataHeader.serialize (DataHeader.mk MAGIC VERSION bc dh c g) =
    [11, 14, 10, 13, 0, 1] ++
      (NibbleNumber.fromU64 bc ++ (NibbleNumber.fromU64 dh ++ [c.toU8, g.toU8])) := by
  cases c <;> cases g <;> (simp only [DataHeader.serialize]; rfl)

/-- Parsing the explicit serialized-header shape recovers every field. -/
theorem tryFrom_explicit (bc dh ci gr : Nat) (c : CompressInput)
    (g : ByteSplitGranularity) (hbc : bc < 2 ^ 64) (hdh : dh < 2 ^ 64)
    (hci : ci < 256) (hgr : gr < 256) (hc : CompressInput.tryFrom ci = .ok c)
    (hg : ByteSplitGranularity.tryFrom gr = .ok g) :
    DataHeader.tryFrom
      ([11, 14, 10, 13, 0, 1] ++
        (NibbleNumber.fromU64 bc ++ (NibbleNumber.fromU64 dh ++ [ci, gr]))) =
    .ok (DataHeader.mk MAGIC VERSION bc dh c g) := by
  have h1 : List.take 4 ([11, 14, 10, 13, 0, 1] ++
      (NibbleNumber.fromU64 bc ++ (NibbleNumber.fromU64 dh ++ [ci, gr]))) =
      [11, 14, 10, 13] := rfl
  have h2 : List.take 2 (List.drop 4 ([11, 14, 10, 13, 0, 1] ++
      (NibbleNumber.fromU64 bc ++ (NibbleNumber.fromU64 dh ++ [ci, gr])))) = [0, 1] := rfl
  have h3 : List.take 16 (List.drop 6 ([11, 14, 10, 13, 0, 1] ++
      (NibbleNumber.fromU64 bc ++ (NibbleNumber.fromU64 dh ++ [ci, gr])))) =
      NibbleNumber.fromU64 bc := rfl
  have h4 : List.take 16 (List.drop 22 ([11, 14, 10, 13, 0, 1] ++
      (NibbleNumber.fromU64 bc ++ (NibbleNumber.fromU64 dh ++ [ci, gr])))) =
      NibbleNumber.fromU64 dh := rfl
  have h5 : List.take 1 (List.drop 38 ([11, 14, 10, 13, 0, 1] ++
      (NibbleNumber.fromU64 bc ++ (NibbleNumber.fromU64 dh ++ [ci, gr])))) = [ci] := rfl
  have h6 : List.take 1 (List.drop 39 ([11, 14, 10, 13, 0, 1] ++
      (NibbleNumber.fromU64 bc ++ (NibbleNumber.fromU64 dh ++ [ci, gr])))) = [gr] := rfl
  have h7 : NibbleNumber.toU64 (List.replicate 12 0 ++ [11, 14, 10, 13]) = 0xBEAD := rfl
  have h8 : NibbleNumber.toU64 (List.replicate 14 0 ++ [0, 1]) = 1 := rfl
  simp only [DataHeader.tryFrom, h1, h2, h3, h4, h5, h6, h7, h8, toU64_pad15,
    toU64_fromU64 bc hbc, toU64_fromU64 dh hdh,
    Nat.mod_eq_of_lt (show ci < 2 ^ 8 from hci), Nat.mod_eq_of_lt (show gr < 2 ^ 8 from hgr),
    hc, hg, MAGIC, VERSION]
  rfl

/-- Deserializing the serialization of any valid header recovers it. -/
theorem tryFrom_serialize (h : DataHeader) (hm : h.magic = MAGIC)
    (hv : h.version = VERSION) (hbc : h.bytes_count < 2 ^ 64)
    (hdh : h.data_hash < 2 ^ 64) :
    DataHeader.tryFrom h.serialize = .ok h := by
  obtain ⟨m, v, bc, dh, c, g⟩ := h
  simp only at hm hv hbc hdh
  subst hm hv
  rw [serialize_mk]
  exact tryFrom_explicit bc dh c.toU8 g.toU8 c g hbc hdh
    (by cases c <;> decide) (by cases g <;> decide)
    (by cases c <;> rfl) (by cases g <;> rfl)


/-! ### Shift/or distribution helpers -/

theorem shiftRight_or_distrib (a b s : Nat) : (a ||| b) >>> s = (a >>> s) ||| (b >>> s) := by
  apply Nat.eq_of_testBit_eq
  intro i
  simp [Nat.testBit_shiftRight, Nat.testBit_or]

theorem and_shiftLeft_shiftRight (v m s : Nat) : (v &&& (m <<< s)) >>> s = (v >>> s) &&& m := by
  apply Nat.eq_of_testBit_eq
  intro i
  simp only [Nat.testBit_shiftRight, Nat.testBit_and, Nat.testBit_shiftLeft,
    Nat.le_add_right, Nat.add_sub_cancel_left, decide_True, Bool.true_and]

/-! ### Granularity transform lemmas -/

/-- Each granularity splits one byte into `8 / depth` sub-codes. -/
theorem split_byte_length (g : ByteSplitGranularity) (b : Nat) :
    (split_byte g b).length = 8 / g.toU8 := by
  cases g <;> simp [split_byte, ByteSplitGranularity.toU8]

/-- The sub-codes are the consecutive depth-bit groups of the byte, most
significant group first. -/
theorem split_byte_spec (g : ByteSplitGranularity) (b : Nat) (hb : b < 256) :
    split_byte g b =
      (List.range (8 / g.toU8)).map
        (fun i => b / 2 ^ (8 - g.toU8 * (i + 1)) % 2 ^ g.toU8) := by
  cases g
  · exact (by decide : ∀ b < 256, split_byte .FourBits b =
      (List.range (8 / ByteSplitGranularity.toU8 .FourBits)).map
        (fun i => b / 2 ^ (8 - ByteSplitGranularity.toU8 .FourBits * (i + 1)) %
          2 ^ ByteSplitGranularity.toU8 .FourBits)) b hb
  · exact (by decide : ∀ b < 256, split_byte .TwoBits b =
      (List.range (8 / ByteSplitGranularity.toU8 .TwoBits)).map
        (fun i => b / 2 ^ (8 - ByteSplitGranularity.toU8 .TwoBits * (i + 1)) %
          2 ^ ByteSplitGranularity.toU8 .TwoBits)) b hb
  · exact (by decide : ∀ b < 256, split_byte .OneBit b =
      (List.range (8 / ByteSplitGranularity.toU8 .OneBit)).map
        (fun i => b / 2 ^ (8 - ByteSplitGranularity.toU8 .OneBit * (i + 1)) %
          2 ^ ByteSplitGranularity.toU8 .OneBit)) b hb

/-- Every sub-code is below `2 ^ depth`. -/
theorem split_byte_lt (g : ByteSplitGranularity) (b : Nat) (hb : b < 256) :
    ∀ x ∈ split_byte g b, x < 2 ^ g.toU8 := by
  intro x hx
  rw [split_byte_spec g b hb] at hx
  simp only [List.mem_map, List.mem_range] at hx
  obtain ⟨i, _, rfl⟩ := hx
  exact Nat.mod_lt _ (Nat.pos_pow_of_pos _ (by norm_num))

/-- Merging the split of a byte recovers the byte. -/
theorem merge_split_byte (g : ByteSplitGranularity) (b : Nat) (hb : b < 256) :
    merge_bytes g (split_byte g b) = b := by
  cases g
  · exact (by decide : ∀ b < 256, merge_bytes .FourBits (split_byte .FourBits b) = b) b hb
  · exact (by decide : ∀ b < 256, merge_bytes .TwoBits (split_byte .TwoBits b) = b) b hb
  · exact (by decide : ∀ b < 256, merge_bytes .OneBit (split_byte .OneBit b) = b) b hb

/-! ### Zip lemmas -/

/-- `zip_bytes` takes its low `depth` bits from the right argument. -/
theorem zip_low (g : ByteSplitGranularity) (l r : Nat) :
    zip_bytes g l r &&& (2 ^ g.toU8 - 1) = r &&& (2 ^ g.toU8 - 1) := by
  cases g <;>
    simp only [zip_bytes, ByteSplitGranularity.toU8, Nat.and_distrib_right, Nat.and_assoc,
      show ((2 : Nat) ^ 4 - 1) = 15 from rfl, show ((2 : Nat) ^ 2 - 1) = 3 from rfl,
      show ((2 : Nat) ^ 1 - 1) = 1 from rfl,
      show ((240 : Nat) &&& 15) = 0 from rfl, show ((15 : Nat) &&& 15) = 15 from rfl,
      show ((252 : Nat) &&& 3) = 0 from rfl, show ((3 : Nat) &&& 3) = 3 from rfl,
      show ((254 : Nat) &&& 1) = 0 from rfl, show ((1 : Nat) &&& 1) = 1 from rfl,
      Nat.and_zero, Nat.zero_or]

/-- `zip_bytes` keeps the high `8 - depth` bits of the left (carrier) byte. -/
theorem zip_high (g : ByteSplitGranularity) (l r : Nat) (hl : l < 256) :
    zip_bytes g l r >>> g.toU8 = l >>> g.toU8 := by
  cases g
  · show ((l &&& 0xF0) ||| (r &&& 0x0F)) >>> 4 = l >>> 4
    rw [shiftRight_or_distrib, show (0xF0 : Nat) = 15 <<< 4 from rfl,
      and_shiftLeft_shiftRight,
      Nat.shiftRight_eq_div_pow (r &&& 0x0F) 4,
      Nat.div_eq_of_lt (lt_of_le_of_lt Nat.and_le_right (by norm_num)), Nat.or_zero,
      Nat.and_pow_two_sub_one_of_lt_two_pow (n := 4)]
    rw [Nat.shiftRight_eq_div_pow]
    exact Nat.div_lt_of_lt_mul (by omega)
  · show ((l &&& 0xFC) ||| (r &&& 0x03)) >>> 2 = l >>> 2
    rw [shiftRight_or_distrib, show (0xFC : Nat) = 63 <<< 2 from rfl,
      and_shiftLeft_shiftRight,
      Nat.shiftRight_eq_div_pow (r &&& 0x03) 2,
      Nat.div_eq_of_lt (lt_of_le_of_lt Nat.and_le_right (by norm_num)), Nat.or_zero,
      Nat.and_pow_two_sub_one_of_lt_two_pow (n := 6)]
    rw [Nat.shiftRight_eq_div_pow]
    exact Nat.div_lt_of_lt_mul (by omega)
  · show ((l &&& 0xFE) ||| (r &&& 0x01)) >>> 1 = l >>> 1
    rw [shiftRight_or_distrib, show (0xFE : Nat) = 127 <<< 1 from rfl,
      and_shiftLeft_shiftRight,
      Nat.shiftRight_eq_div_pow (r &&& 0x01) 1,
      Nat.div_eq_of_lt (lt_of_le_of_lt Nat.and_le_right (by norm_num)), Nat.or_zero,
      Nat.and_pow_two_sub_one_of_lt_two_pow (n := 7)]
    rw [Nat.shiftRight_eq_div_pow]
    exact Nat.div_lt_of_lt_mul (by omega)

/-- Zipping the same sub-code twice yields the same byte. -/
theorem zip_idem (g : ByteSplitGranularity) (l r : Nat) :
    zip_bytes g (zip_bytes g l r) r = zip_bytes g l r := by
  cases g <;>
    simp only [zip_bytes, Nat.and_distrib_right, Nat.and_assoc,
      show ((240 : Nat) &&& 240) = 240 from rfl, show ((15 : Nat) &&& 240) = 0 from rfl,
      show ((252 : Nat) &&& 252) = 252 from rfl, show ((3 : Nat) &&& 252) = 0 from rfl,
      show ((254 : Nat) &&& 254) = 254 from rfl, show ((1 : Nat) &&& 254) = 0 from rfl,
      Nat.and_zero, Nat.or_zero]

/-! ### Chunking lemmas -/

theorem chunksOfAux_fuel (k : Nat) (hk : 0 < k) :
    ∀ (fuel fuel2 : Nat) (l : List Nat), l.length ≤ fuel → l.length ≤ fuel2 →
      chunksOfAux fuel k l = chunksOfAux fuel2 k l := by
  intro fuel
  induction fuel with
  | zero =>
    intro fuel2 l h1 _
    have : l = [] := List.eq_nil_of_length_eq_zero (Nat.le_zero.mp h1)
    subst this
    cases fuel2 <;> rfl
  | succ fuel ih =>
    intro fuel2 l h1 h2
    cases l with
    | nil => cases fuel2 <;> rfl
    | cons x xs =>
      cases fuel2 with
      | zero => simp at h2
      | succ fuel2 =>
        simp only [chunksOfAux]
        congr 1
        apply ih
        · simp only [List.length_drop, List.length_cons]
          simp only [List.length_cons] at h1
          omega
        · simp only [List.length_drop, List.length_cons]
          simp only [List.length_cons] at h2
          omega

theorem chunksOf_cons (k : Nat) (hk : 0 < k) (l : List Nat) (hl : l ≠ []) :
    chunksOf k l = l.take k :: chunksOf k (l.drop k) := by
  obtain ⟨x, xs, rfl⟩ := List.exists_cons_of_ne_nil hl
  show chunksOfAux (x :: xs).length k (x :: xs) = _
  simp only [List.length_cons, chunksOfAux]
  congr 1
  show chunksOfAux xs.length k _ = chunksOf k _
  apply chunksOfAux_fuel _ hk
  · simp only [List.length_drop, List.length_cons]
    omega
  · exact Nat.le_refl _

theorem chunksOf_append (k : Nat) (hk : 0 < k) (xs ys : List Nat)
    (hxs : xs.length = k) :
    chunksOf k (xs ++ ys) = xs :: chunksOf k ys := by
  have hne : xs ++ ys ≠ [] := by
    intro h
    rw [List.append_eq_nil] at h
    rw [h.1] at hxs
    simp at hxs
    omega
  rw [chunksOf_cons k hk _ hne, List.take_left' hxs, List.drop_left' hxs]

/-! ### Recovering the payload from zipped carriers -/

/-- The first n chunks of a list holding at least n*k elements are all
full. -/
theorem chunksOf_take_full (k : Nat) (hk : 0 < k) :
    ∀ (n : Nat) (l : List Nat), n * k ≤ l.length →
      ∀ ch ∈ (chunksOf k l).take n, ch.length = k := by
  intro n
  induction n with
  | zero =>
    intro l _ ch hch
    simp at hch
  | succ m ih =>
    intro l hlen ch hch
    rw [Nat.succ_mul] at hlen
    have hl : l ≠ [] := by
      intro h
      rw [h] at hlen
      simp only [List.length_nil] at hlen
      omega
    rw [chunksOf_cons k hk l hl, List.take_succ_cons] at hch
    rcases List.mem_cons.mp hch with h | h
    · rw [h, List.length_take]
      omega
    · exact ih (l.drop k) (by rw [List.length_drop]; omega) ch h

theorem getD_zipWith (f : Nat → Nat → Nat) :
    ∀ (l1 l2 : List Nat) (i : Nat), i < l1.length → i < l2.length →
      (List.zipWith f l1 l2).getD i 0 = f (l1.getD i 0) (l2.getD i 0) := by
  intro l1
  induction l1 with
  | nil => intro l2 i h1 _; simp at h1
  | cons x xs ih =>
    intro l2 i h1 h2
    cases l2 with
    | nil => simp at h2
    | cons y ys =>
      cases i with
      | zero => rfl
      | succ i =>
        simp only [List.zipWith_cons_cons, List.getD_cons_succ]
        exact ih ys i (by simpa using h1) (by simpa using h2)

/-- Merging the zip of any carriers with the split of a byte recovers the
byte: the zipped low bits are exactly the sub-codes, and merging reads only
those low bits. -/
theorem merge_zip_split (g : ByteSplitGranularity) (c : List Nat) (b : Nat)
    (hb : b < 256) (hc : 8 / g.toU8 ≤ c.length) :
    merge_bytes g (List.zipWith (fun l r => zip_bytes g l r) c (split_byte g b)) = b := by
  cases g
  · have hlow : ∀ x y : Nat, zip_bytes .FourBits x y &&& 15 = y &&& 15 :=
      fun x y => zip_low .FourBits x y
    have hc2 : (2 : Nat) ≤ c.length := hc
    have hsl : (split_byte .FourBits b).length = 2 := rfl
    simp only [merge_bytes,
      getD_zipWith _ c _ 0 (by omega) (by rw [hsl]; omega),
      getD_zipWith _ c _ 1 (by omega) (by rw [hsl]; omega),
      show (0xF0 : Nat) = 15 <<< 4 from rfl, shiftLeft_and_shiftLeft,
      show (0x0F : Nat) = 15 from rfl, hlow]
    exact (by decide : ∀ b < 256,
      (((split_byte .FourBits b).getD 0 0 &&& 15) <<< 4) |||
        ((split_byte .FourBits b).getD 1 0 &&& 15) = b) b hb
  · have hlow : ∀ x y : Nat, zip_bytes .TwoBits x y &&& 3 = y &&& 3 :=
      fun x y => zip_low .TwoBits x y
    have hc2 : (4 : Nat) ≤ c.length := hc
    have hsl : (split_byte .TwoBits b).length = 4 := rfl
    simp only [merge_bytes,
      getD_zipWith _ c _ 0 (by omega) (by rw [hsl]; omega),
      getD_zipWith _ c _ 1 (by omega) (by rw [hsl]; omega),
      getD_zipWith _ c _ 2 (by omega) (by rw [hsl]; omega),
      getD_zipWith _ c _ 3 (by omega) (by rw [hsl]; omega),
      show (0xC0 : Nat) = 3 <<< 6 from rfl, show (0x30 : Nat) = 3 <<< 4 from rfl,
      show (0x0C : Nat) = 3 <<< 2 from rfl, shiftLeft_and_shiftLeft,
      show (0x03 : Nat) = 3 from rfl, hlow]
    exact (by decide : ∀ b < 256,
      (((split_byte .TwoBits b).getD 0 0 &&& 3) <<< 6) |||
        (((split_byte .TwoBits b).getD 1 0 &&& 3) <<< 4) |||
        (((split_byte .TwoBits b).getD 2 0 &&& 3) <<< 2) |||
        ((split_byte .TwoBits b).getD 3 0 &&& 3) = b) b hb
  · have hlow : ∀ x y : Nat, zip_bytes .OneBit x y &&& 1 = y &&& 1 :=
      fun x y => zip_low .OneBit x y
    have hc2 : (8 : Nat) ≤ c.length := hc
    have hsl : (split_byte .OneBit b).length = 8 := rfl
    simp only [merge_bytes,
      getD_zipWith _ c _ 0 (by omega) (by rw [hsl]; omega),
      getD_zipWith _ c _ 1 (by omega) (by rw [hsl]; omega),
      getD_zipWith _ c _ 2 (by omega) (by rw [hsl]; omega),
      getD_zipWith _ c _ 3 (by omega) (by rw [hsl]; omega),
      getD_zipWith _ c _ 4 (by omega) (by rw [hsl]; omega),
      getD_zipWith _ c _ 5 (by omega) (by rw [hsl]; omega),
      getD_zipWith _ c _ 6 (by omega) (by rw [hsl]; omega),
      getD_zipWith _ c _ 7 (by omega) (by rw [hsl]; omega),
      show ∀ x : Nat, (x <<< 7) &&& 0x80 = (x &&& 1) <<< 7 from fun x => by
        rw [show (0x80 : Nat) = 1 <<< 7 from rfl, shiftLeft_and_shiftLeft],
      show ∀ x : Nat, (x <<< 6) &&& 0x40 = (x &&& 1) <<< 6 from fun x => by
        rw [show (0x40 : Nat) = 1 <<< 6 from rfl, shiftLeft_and_shiftLeft],
      show ∀ x : Nat, (x <<< 5) &&& 0x20 = (x &&& 1) <<< 5 from fun x => by
        rw [show (0x20 : Nat) = 1 <<< 5 from rfl, shiftLeft_and_shiftLeft],
      show ∀ x : Nat, (x <<< 4) &&& 0x10 = (x &&& 1) <<< 4 from fun x => by
        rw [show (0x10 : Nat) = 1 <<< 4 from rfl, shiftLeft_and_shiftLeft],
      show ∀ x : Nat, (x <<< 3) &&& 0x08 = (x &&& 1) <<< 3 from fun x => by
        rw [show (0x08 : Nat) = 1 <<< 3 from rfl, shiftLeft_and_shiftLeft],
      show ∀ x : Nat, (x <<< 2) &&& 0x04 = (x &&& 1) <<< 2 from fun x => by
        rw [show (0x04 : Nat) = 1 <<< 2 from rfl, shiftLeft_and_shiftLeft],
      show ∀ x : Nat, (x <<< 1) &&& 0x02 = (x &&& 1) <<< 1 from fun x => by
        rw [show (0x02 : Nat) = 1 <<< 1 from rfl, shiftLeft_and_shiftLeft],
      hlow]
    exact (by decide : ∀ b < 256,
      (((split_byte .OneBit b).getD 0 0 &&& 1) <<< 7) |||
        (((split_byte .OneBit b).getD 1 0 &&& 1) <<< 6) |||
        (((split_byte .OneBit b).getD 2 0 &&& 1) <<< 5) |||
        (((split_byte .OneBit b).getD 3 0 &&& 1) <<< 4) |||
        (((split_byte .OneBit b).getD 4 0 &&& 1) <<< 3) |||
        (((split_byte .OneBit b).getD 5 0 &&& 1) <<< 2) |||
        (((split_byte .OneBit b).getD 6 0 &&& 1) <<< 1) |||
        ((split_byte .OneBit b).getD 7 0 &&& 1) = b) b hb

/-- Walking the zipped payload region in chunks and merging recovers the
original byte stream, whatever the carriers and whatever trails behind. -/
theorem decode_zip_flatten (g : ByteSplitGranularity) :
    ∀ (bs cover rest : List Nat), (∀ b ∈ bs, b < 256) →
      ((bs.map (fun b => split_byte g b)).flatten).length ≤ cover.length →
      ((chunksOf (8 / g.toU8) (List.zipWith (fun l r => zip_bytes g l r) cover
          ((bs.map (fun b => split_byte g b)).flatten) ++ rest)).take bs.length).map
        (fun chunk => merge_bytes g chunk) = bs := by
  intro bs
  induction bs with
  | nil => intro cover rest _ _; simp
  | cons b bs2 ih =>
    intro cover rest hb hlen
    have hk : 0 < 8 / g.toU8 := by cases g <;> decide
    have hsl : (split_byte g b).length = 8 / g.toU8 := split_byte_length g b
    simp only [List.map_cons, List.flatten_cons, List.length_append, hsl] at hlen ⊢
    have hcov : 8 / g.toU8 ≤ cover.length := by omega
    have htk : (cover.take (8 / g.toU8)).length = (split_byte g b).length := by
      rw [hsl, List.length_take]
      omega
    rw [show cover = cover.take (8 / g.toU8) ++ cover.drop (8 / g.toU8) from
        (List.take_append_drop _ cover).symm,
      List.zipWith_append _ _ _ _ _ htk, List.append_assoc,
      chunksOf_append _ hk _ _
        (by rw [List.length_zipWith, htk, hsl]; omega),
      List.length_cons, List.take_succ_cons, List.map_cons,
      merge_zip_split g _ b (hb b (List.mem_cons_self b bs2)) (by rw [List.length_take]; omega)]
    congr 1
    have := ih (cover.drop (8 / g.toU8)) rest
      (fun x hx => hb x (List.mem_cons_of_mem b hx))
      (by rw [List.length_drop]; omega)
    exact this

/-! ### Structure of the encoder output -/

/-- `BytesZipper::merge_into` never changes the length of its destination. -/
theorem BytesZipper.merge_into_length (dest src : List Nat)
    (g : ByteSplitGranularity) :
    (BytesZipper.merge_into dest src g).length = dest.length := by
  simp only [BytesZipper.merge_into, List.length_append, List.length_zipWith,
    List.length_drop]
  omega

/-- Masking the low nibbles out of carriers zipped at four-bit granularity
recovers the embedded nibble stream. -/
theorem map_mask_zipWith :
    ∀ (h c : List Nat), (∀ x ∈ h, x < 16) → h.length ≤ c.length →
      (List.zipWith (fun l r => zip_bytes .FourBits l r) c h).map
        (fun x => x &&& 0x0F) = h := by
  intro h
  induction h with
  | nil => intro c _ _; simp
  | cons x xs ih =>
    intro c hx hl
    cases c with
    | nil => simp at hl
    | cons c0 cs =>
      simp only [List.zipWith_cons_cons, List.map_cons]
      congr 1
      · have h1 : zip_bytes .FourBits c0 x &&& 15 = x &&& 15 := zip_low .FourBits c0 x
        have h2 : x &&& 15 = x := by
          rw [show (15 : Nat) = 2 ^ 4 - 1 from rfl]
          exact Nat.and_pow_two_sub_one_of_lt_two_pow (hx x (List.mem_cons_self x xs))
        exact h1.trans h2
      · exact ih cs (fun y hy => hx y (List.mem_cons_of_mem x hy)) (by simpa using hl)

/-- Every byte of a serialized header is a nibble. -/
theorem serialize_lt16 (h : DataHeader) : ∀ x ∈ h.serialize, x < 16 := by
  simp only [DataHeader.serialize]
  intro x hx
  simp only [List.mem_append] at hx
  rcases hx with ((((hx | hx) | hx) | hx) | hx) | hx <;>
    first
    | exact fromU64_lt16 _ x (List.mem_of_mem_drop hx)
    | exact fromU64_lt16 _ x hx

/-- A serialized header is exactly 40 carrier bytes. -/
theorem serialize_length (h : DataHeader) : h.serialize.length = 40 := by
  simp only [DataHeader.serialize, List.length_append, List.length_drop]
  rfl

/-- The total sub-code count of a split byte stream. -/
theorem flatten_split_length (g : ByteSplitGranularity) (S : List Nat) :
    ((S.map (fun b => split_byte g b)).flatten).length = S.length * (8 / g.toU8) := by
  induction S with
  | nil => simp
  | cons b bs ih =>
    simp only [List.map_cons, List.flatten_cons, List.length_append, ih,
      split_byte_length, List.length_cons]
    ring

/-- `encode_data` fully unfolded: the serialized header carries the byte
count and running checksum of the input stream, and the data part is the
concatenation of the per-byte sub-codes in order. -/
theorem encode_data_eq (e : Encoder) (input : List Nat) :
    e.encode_data input =
      { header := (DataHeader.mk MAGIC VERSION (i32CountAsU64 input.length)
          (dhash input) e.compress_input e.byte_split_level).serialize
        data := (input.map (fun b => split_byte e.byte_split_level b)).flatten } := rfl

/-- Below 2^31 the i32 byte counter never wraps and the stored count is
exact. -/
theorem i32CountAsU64_eq_of_lt (n : Nat) (h : n < 2 ^ 31) :
    i32CountAsU64 n = n := by
  rw [i32CountAsU64, Nat.mod_eq_of_lt (by omega), if_pos h]

/-- The stored 64-bit count always fits in 64 bits. -/
theorem i32CountAsU64_lt (n : Nat) : i32CountAsU64 n < 2 ^ 64 := by
  have h : n % 2 ^ 32 < 2 ^ 32 := Nat.mod_lt n (by norm_num)
  rw [i32CountAsU64]
  split <;> omega

/-- The running checksum always fits in 64 bits. -/
theorem dhash_lt (l : List Nat) : dhash l < 2 ^ 64 := by
  suffices h : ∀ (l : List Nat) (s : Nat), s < 2 ^ 64 →
      l.foldl (fun state b => (state * 31 + b) % 2 ^ 64) s < 2 ^ 64 by
    exact h l 0 (by norm_num)
  intro l
  induction l with
  | nil => intro s hs; simpa using hs
  | cons x xs ih =>
    intro s _
    simp only [List.foldl_cons]
    exact ih _ (Nat.mod_lt _ (by norm_num))

/-- When the encoded output fits, `encode` succeeds with the merged cover. -/
theorem encode_eq_ok (e : Encoder) (compress : List Nat → List Nat)
    (cover input : List Nat)
    (hfit : (e.encode_data (payloadStream e.compress_input compress input)).len ≤
      cover.length) :
    e.encode compress cover input =
      .ok (e.merge_into cover
        (e.encode_data (payloadStream e.compress_input compress input))) := by
  have hif : (if e.compress_input = CompressInput.Gzip then
      e.encode_data (compress input) else e.encode_data input) =
      e.encode_data (payloadStream e.compress_input compress input) := by
    unfold payloadStream
    split <;> rfl
  simp only [Encoder.encode, hif, Encoder.check_utilisation, if_pos hfit]
  rfl

/-- Monadic bind on a successful `Except` value applies the continuation. -/
theorem ok_bind {α β : Type} (a : α) (f : α → Except StegError β) :
    (Except.ok a >>= f) = f a := rfl

/-- When every taken chunk is full, no panic occurs: `decode_data` merges
chunk by chunk, with the chunk size written as `8 / depth`. -/
theorem decode_data_some (x : List Nat) (h : DataHeader)
    (hfull : ∀ ch ∈ (chunksOf (8 / h.granularity.toU8) x).take h.bytes_count,
      ch.length = 8 / h.granularity.toU8) :
    Decoder.decode_data x h =
      some (((chunksOf (8 / h.granularity.toU8) x).take h.bytes_count).map
        (fun chunk => merge_bytes h.granularity chunk)) := by
  obtain ⟨m, v, bc, dh, ci, gr⟩ := h
  simp only [] at hfull ⊢
  cases gr <;>
    (simp only [ByteSplitGranularity.toU8] at hfull ⊢
     norm_num at hfull ⊢
     simp only [Decoder.decode_data]
     rw [if_pos (List.all_eq_true.mpr fun c hc => by
       rw [beq_iff_eq]
       exact hfull c hc), List.map_take])

/-- `uncover_from` once the carrier is long enough and the header parses:
the wrapped size check, then decoding (with its possible panic), then
decompression and the checksum comparison. -/
theorem uncover_from_with_header
    (decompress : List Nat → Except StegError (List Nat)) (input : List Nat)
    (hd : DataHeader) (h40 : ¬ input.length < HEADER_LENGTH)
    (hhd : Decoder.extract_header (input.take HEADER_LENGTH) = .ok hd) :
    Decoder.uncover_from decompress input =
      (if (input.drop HEADER_LENGTH).length <
          (match hd.granularity with
            | ByteSplitGranularity.FourBits => hd.bytes_count * 2
            | ByteSplitGranularity.TwoBits => hd.bytes_count * 4
            | ByteSplitGranularity.OneBit => hd.bytes_count * 8) % 2 ^ 64 then
        some (.error .dataTooSmall)
      else
        match Decoder.decode_data (input.drop HEADER_LENGTH) hd with
        | none => none
        | some recovered =>
          some (do
            let data ←
              if hd.compress_input = CompressInput.Gzip then
                decompress recovered
              else pure recovered
            let hash := dhash recovered
            if hash ≠ hd.data_hash then
              throw (.hashMismatch hash hd.data_hash)
            else
              return data)) := by
  rw [Decoder.uncover_from.eq_def, if_neg h40, hhd]

/-- Decoding the carrier array built by `merge_into` from `encode_data`
recovers the embedded stream: the decoder re-reads the header, walks the
payload region, checks the (matching) checksum, and hands the recovered
stream to the decompressor exactly when the header says Gzip.  The stream
must stay below 2^31 bytes, where the source's i32 byte counter is exact. -/
theorem uncover_merge_into (c : CompressInput) (g : ByteSplitGranularity)
    (decompress : List Nat → Except StegError (List Nat)) (cover S : List Nat)
    (hbytes : ∀ b ∈ S, b < 256) (hlen : S.length < 2 ^ 31)
    (hcap : HEADER_LENGTH + S.length * (8 / g.toU8) ≤ cover.length) :
    Decoder.uncover_from decompress
        ((Encoder.new c g).merge_into cover ((Encoder.new c g).encode_data S)) =
      some (if c = CompressInput.Gzip then decompress S else .ok S) := by
  have hk : 0 < 8 / g.toU8 := by cases g <;> decide
  set hd : DataHeader :=
    DataHeader.mk MAGIC VERSION S.length (dhash S) c g with hhd
  set H := hd.serialize with hH
  set D := (S.map (fun b => split_byte g b)).flatten with hD
  have hDlen : D.length = S.length * (8 / g.toU8) := flatten_split_length g S
  have hHlen : H.length = 40 := serialize_length hd
  have hcap40 : 40 + D.length ≤ cover.length := by
    rw [hDlen]
    exact hcap
  set mid := (cover.drop HEADER_LENGTH).take D.length with hmid
  have hmidlen : mid.length = D.length := by
    rw [hmid, List.length_take, List.length_drop]
    simp only [HEADER_LENGTH]
    omega
  set A := BytesZipper.merge_into (cover.take HEADER_LENGTH) H .FourBits with hA
  set B := BytesZipper.merge_into mid D g with hB
  set C := cover.drop (HEADER_LENGTH + D.length) with hC
  have hmerge : (Encoder.new c g).merge_into cover ((Encoder.new c g).encode_data S) =
      A ++ (B ++ C) := by
    rw [encode_data_eq, i32CountAsU64_eq_of_lt S.length hlen, hA, hB, hC, hmid,
      hH, hD, hhd]
    simp only [Encoder.merge_into, Encoder.new]
    rw [List.append_assoc]
  have htakelen : (cover.take HEADER_LENGTH).length = 40 := by
    rw [List.length_take]
    simp only [HEADER_LENGTH]
    omega
  have hAlen : A.length = 40 := by
    rw [hA, BytesZipper.merge_into_length, htakelen]
  have hBlen : B.length = D.length := by
    rw [hB, BytesZipper.merge_into_length, hmidlen]
  have hElen : (A ++ (B ++ C)).length = cover.length := by
    simp only [List.length_append, hAlen, hBlen, hC, List.length_drop]
    simp only [HEADER_LENGTH]
    omega
  have hAzip : A = List.zipWith (fun l r => zip_bytes .FourBits l r)
      (cover.take HEADER_LENGTH) H := by
    rw [hA, BytesZipper.merge_into]
    rw [show (cover.take HEADER_LENGTH).drop H.length = [] from by
      apply List.drop_eq_nil_of_le
      rw [htakelen, hHlen]]
    exact List.append_nil _
  have hBzip : B = List.zipWith (fun l r => zip_bytes g l r) mid D := by
    rw [hB, BytesZipper.merge_into]
    rw [show mid.drop D.length = [] from by
      apply List.drop_eq_nil_of_le
      rw [hmidlen]]
    exact List.append_nil _
  have htake40 : (A ++ (B ++ C)).take HEADER_LENGTH = A := by
    apply List.take_left'
    rw [hAlen]
    rfl
  have hdrop40 : (A ++ (B ++ C)).drop HEADER_LENGTH = B ++ C := by
    apply List.drop_left'
    rw [hAlen]
    rfl
  have hheader : Decoder.extract_header ((A ++ (B ++ C)).take HEADER_LENGTH) =
      .ok hd := by
    rw [htake40, Decoder.extract_header, hAzip,
      map_mask_zipWith H (cover.take HEADER_LENGTH) (serialize_lt16 hd)
        (by rw [htakelen, hHlen])]
    exact tryFrom_serialize hd rfl rfl (show S.length < 2 ^ 64 from by omega)
      (dhash_lt S)
  have hfull : ∀ ch ∈ (chunksOf (8 / hd.granularity.toU8)
      (B ++ C)).take hd.bytes_count, ch.length = 8 / hd.granularity.toU8 :=
    chunksOf_take_full (8 / g.toU8) hk S.length (B ++ C)
      (by rw [List.length_append, hBlen, hDlen]; omega)
  have hrecov : Decoder.decode_data (B ++ C) hd = some S := by
    rw [decode_data_some (B ++ C) hd hfull]
    refine congrArg some ?_
    show ((chunksOf (8 / g.toU8) (B ++ C)).take S.length).map
        (fun chunk => merge_bytes g chunk) = S
    rw [hBzip, hD]
    exact decode_zip_flatten g S mid C hbytes (by rw [hmidlen])
  have h1 : (B ++ C).length = S.length * (8 / g.toU8) + C.length := by
    simp only [List.length_append, hBlen, hDlen]
  rw [hmerge, uncover_from_with_header decompress _ hd
    (by rw [hElen]; omega) hheader]
  simp only [show hd.granularity = g from rfl,
    show hd.bytes_count = S.length from rfl,
    show hd.compress_input = c from rfl,
    show hd.data_hash = dhash S from rfl,
    hdrop40, hrecov]
  split
  · rename_i hlt
    exfalso
    cases g <;> simp only [ByteSplitGranularity.toU8] at h1 hlt <;>
      rw [Nat.mod_eq_of_lt (by omega)] at hlt <;> omega
  · simp only [ne_eq, eq_self_iff_true, not_true_eq_false, if_false, bind_pure]
    rfl

/-! ### getD helper lemmas -/

theorem getD_append_left (l1 l2 : List Nat) (p : Nat) (h : p < l1.length) :
    (l1 ++ l2).getD p 0 = l1.getD p 0 := by
  simp [List.getD_eq_getElem?_getD, List.getElem?_append_left h]

theorem getD_append_right (l1 l2 : List Nat) (p : Nat) (h : l1.length ≤ p) :
    (l1 ++ l2).getD p 0 = l2.getD (p - l1.length) 0 := by
  simp [List.getD_eq_getElem?_getD, List.getElem?_append_right h]

theorem getD_take (l : List Nat) (n p : Nat) (h : p < n) :
    (l.take n).getD p 0 = l.getD p 0 := by
  simp [List.getD_eq_getElem?_getD, List.getElem?_take_of_lt h]

theorem getD_drop (l : List Nat) (n p : Nat) :
    (l.drop n).getD p 0 = l.getD (n + p) 0 := by
  simp [List.getD_eq_getElem?_getD, List.getElem?_drop]

theorem getD_default (l : List Nat) (p : Nat) (h : l.length ≤ p) : l.getD p 0 = 0 := by
  simp [List.getD_eq_getElem?_getD, List.getElem?_eq_none h]

theorem getD_mem (l : List Nat) (p : Nat) (h : p < l.length) : l.getD p 0 ∈ l := by
  rw [List.getD_eq_getElem?_getD, List.getElem?_eq_getElem h]
  exact List.getElem_mem h

theorem getD_set_self (l : List Nat) (i v : Nat) (h : i < l.length) :
    (l.set i v).getD i 0 = v := by
  simp [List.getD_eq_getElem?_getD, List.getElem?_set_self, h]

theorem getD_set_ne (l : List Nat) (i p v : Nat) (h : i ≠ p) :
    (l.set i v).getD p 0 = l.getD p 0 := by
  simp [List.getD_eq_getElem?_getD, List.getElem?_set_ne h]

/-- `Encoder::merge_into` as three disjoint regions: zipped header carriers,
zipped payload carriers, untouched tail. -/
theorem merge_into_parts (e : Encoder) (cover : List Nat) (src : EncodeOutput) :
    e.merge_into cover src =
      BytesZipper.merge_into (cover.take HEADER_LENGTH) src.header .FourBits ++
        (BytesZipper.merge_into ((cover.drop HEADER_LENGTH).take src.data.length)
          src.data e.byte_split_level ++
          cover.drop (HEADER_LENGTH + src.data.length)) := by
  simp only [Encoder.merge_into]
  rw [List.append_assoc]

/-- When the encoded output does not fit, `encode` fails with the capacity
error naming the cover size and the encoded size. -/
theorem encode_eq_err (e : Encoder) (compress : List Nat → List Nat)
    (cover input : List Nat)
    (hnofit : cover.length <
      (e.encode_data (payloadStream e.compress_input compress input)).len) :
    e.encode compress cover input =
      .error (.capacityError cover.length
        (e.encode_data (payloadStream e.compress_input compress input)).len) := by
  have hif : (if e.compress_input = CompressInput.Gzip then
      e.encode_data (compress input) else e.encode_data input) =
      e.encode_data (payloadStream e.compress_input compress input) := by
    unfold payloadStream
    split <;> rfl
  simp only [Encoder.encode, hif, Encoder.check_utilisation]
  rw [if_neg (show ¬((e.encode_data
      (payloadStream e.compress_input compress input)).len ≤ cover.length) from by
    omega)]
  rfl

/-! ### Tamper-detection helpers -/

/-- Flipping a bit below `d` changes the low `d` bits of a value. -/
theorem xor_low_ne (x j d : Nat) (hjd : j < d) :
    (x ^^^ 2 ^ j) &&& (2 ^ d - 1) ≠ x &&& (2 ^ d - 1) := by
  intro heq
  have h2 := congrArg (fun t => t.testBit j) heq
  simp only [Nat.testBit_and, Nat.testBit_xor, Nat.testBit_two_pow_self,
    Nat.testBit_two_pow_sub_one, hjd, decide_True, Bool.and_true, Bool.xor_true] at h2
  cases hx : (x.testBit j) <;> rw [hx] at h2 <;> simp at h2

/-- A merged byte is always below 256. -/
theorem merge_lt (g : ByteSplitGranularity) (l : List Nat) :
    merge_bytes g l < 256 := by
  have hterm : ∀ x m : Nat, m < 256 → x &&& m < 256 :=
    fun x m hm => lt_of_le_of_lt Nat.and_le_right hm
  show merge_bytes g l < 2 ^ 8
  cases g <;> simp only [merge_bytes] <;>
    (repeat' apply Nat.or_lt_two_pow) <;>
    exact hterm _ _ (by norm_num)

/-- A two-element list is determined by its first two entries. -/
theorem list_eq_two (l : List Nat) (h : l.length = 2) :
    l = [l.getD 0 0, l.getD 1 0] := by
  rcases l with _ | ⟨a, _ | ⟨b, _ | ⟨c, t⟩⟩⟩ <;>
    simp only [List.length_cons, List.length_nil] at h <;> first | omega | rfl

/-- A four-element list is determined by its first four entries. -/
theorem list_eq_four (l : List Nat) (h : l.length = 4) :
    l = [l.getD 0 0, l.getD 1 0, l.getD 2 0, l.getD 3 0] := by
  rcases l with _ | ⟨a, _ | ⟨b, _ | ⟨c, _ | ⟨d, _ | ⟨e, t⟩⟩⟩⟩⟩ <;>
    simp only [List.length_cons, List.length_nil] at h <;> first | omega | rfl

/-- An eight-element list is determined by its first eight entries. -/
theorem list_eq_eight (l : List Nat) (h : l.length = 8) :
    l = [l.getD 0 0, l.getD 1 0, l.getD 2 0, l.getD 3 0, l.getD 4 0, l.getD 5 0,
      l.getD 6 0, l.getD 7 0] := by
  rcases l with _ | ⟨a, _ | ⟨b, _ | ⟨c, _ | ⟨d, _ | ⟨e, _ | ⟨f, _ | ⟨u, _ | ⟨w,
    _ | ⟨q, t⟩⟩⟩⟩⟩⟩⟩⟩⟩ <;>
    simp only [List.length_cons, List.length_nil] at h <;> first | omega | rfl

/-- Splitting a merged normalized sub-code list recovers the list. -/
theorem split_merge_norm (g : ByteSplitGranularity) (l : List Nat)
    (hlen : l.length = 8 / g.toU8) (hlt : ∀ x ∈ l, x < 2 ^ g.toU8) :
    split_byte g (merge_bytes g l) = l := by
  cases g
  · have h2 : l.length = 2 := by rw [hlen]; rfl
    rw [list_eq_two l h2]
    exact (by decide : ∀ a < 16, ∀ b < 16,
      split_byte .FourBits (merge_bytes .FourBits [a, b]) = [a, b])
      (l.getD 0 0) (hlt _ (getD_mem l 0 (by omega)))
      (l.getD 1 0) (hlt _ (getD_mem l 1 (by omega)))
  · have h2 : l.length = 4 := by rw [hlen]; rfl
    rw [list_eq_four l h2]
    exact (by decide : ∀ a < 4, ∀ b < 4, ∀ c < 4, ∀ d < 4,
      split_byte .TwoBits (merge_bytes .TwoBits [a, b, c, d]) = [a, b, c, d])
      (l.getD 0 0) (hlt _ (getD_mem l 0 (by omega)))
      (l.getD 1 0) (hlt _ (getD_mem l 1 (by omega)))
      (l.getD 2 0) (hlt _ (getD_mem l 2 (by omega)))
      (l.getD 3 0) (hlt _ (getD_mem l 3 (by omega)))
  · have h2 : l.length = 8 := by rw [hlen]; rfl
    rw [list_eq_eight l h2]
    exact (by decide : ∀ a : Fin 2, ∀ b : Fin 2, ∀ c : Fin 2, ∀ d : Fin 2,
      ∀ e : Fin 2, ∀ f : Fin 2, ∀ u : Fin 2, ∀ w : Fin 2,
      split_byte .OneBit (merge_bytes .OneBit
        [a.val, b.val, c.val, d.val, e.val, f.val, u.val, w.val]) =
        [a.val, b.val, c.val, d.val, e.val, f.val, u.val, w.val])
      ⟨l.getD 0 0, hlt _ (getD_mem l 0 (by omega))⟩
      ⟨l.getD 1 0, hlt _ (getD_mem l 1 (by omega))⟩
      ⟨l.getD 2 0, hlt _ (getD_mem l 2 (by omega))⟩
      ⟨l.getD 3 0, hlt _ (getD_mem l 3 (by omega))⟩
      ⟨l.getD 4 0, hlt _ (getD_mem l 4 (by omega))⟩
      ⟨l.getD 5 0, hlt _ (getD_mem l 5 (by omega))⟩
      ⟨l.getD 6 0, hlt _ (getD_mem l 6 (by omega))⟩
      ⟨l.getD 7 0, hlt _ (getD_mem l 7 (by omega))⟩

/-- Merging reads only the low `depth` bits of each of the first `8/depth`
entries. -/
theorem merge_congr_low (g : ByteSplitGranularity) (l1 l2 : List Nat)
    (h : ∀ m, m < 8 / g.toU8 →
      l1.getD m 0 &&& (2 ^ g.toU8 - 1) = l2.getD m 0 &&& (2 ^ g.toU8 - 1)) :
    merge_bytes g l1 = merge_bytes g l2 := by
  cases g
  · have h0 := h 0 (by decide)
    have h1 := h 1 (by decide)
    simp only [ByteSplitGranularity.toU8, show ((2 : Nat) ^ 4 - 1) = 15 from rfl] at h0 h1
    simp only [merge_bytes,
      show ∀ x : Nat, (x <<< 4) &&& 0xF0 = (x &&& 15) <<< 4 from fun x => by
        rw [show (0xF0 : Nat) = 15 <<< 4 from rfl, shiftLeft_and_shiftLeft],
      show (0x0F : Nat) = 15 from rfl, h0, h1]
  · have h0 := h 0 (by decide)
    have h1 := h 1 (by decide)
    have h2 := h 2 (by decide)
    have h3 := h 3 (by decide)
    simp only [ByteSplitGranularity.toU8, show ((2 : Nat) ^ 2 - 1) = 3 from rfl] at h0 h1 h2 h3
    simp only [merge_bytes,
      show ∀ x : Nat, (x <<< 6) &&& 0xC0 = (x &&& 3) <<< 6 from fun x => by
        rw [show (0xC0 : Nat) = 3 <<< 6 from rfl, shiftLeft_and_shiftLeft],
      show ∀ x : Nat, (x <<< 4) &&& 0x30 = (x &&& 3) <<< 4 from fun x => by
        rw [show (0x30 : Nat) = 3 <<< 4 from rfl, shiftLeft_and_shiftLeft],
      show ∀ x : Nat, (x <<< 2) &&& 0x0C = (x &&& 3) <<< 2 from fun x => by
        rw [show (0x0C : Nat) = 3 <<< 2 from rfl, shiftLeft_and_shiftLeft],
      show (0x03 : Nat) = 3 from rfl, h0, h1, h2, h3]
  · have h0 := h 0 (by decide)
    have h1 := h 1 (by decide)
    have h2 := h 2 (by decide)
    have h3 := h 3 (by decide)
    have h4 := h 4 (by decide)
    have h5 := h 5 (by decide)
    have h6 := h 6 (by decide)
    have h7 := h 7 (by decide)
    simp only [ByteSplitGranularity.toU8,
      show ((2 : Nat) ^ 1 - 1) = 1 from rfl] at h0 h1 h2 h3 h4 h5 h6 h7
    simp only [merge_bytes,
      show ∀ x : Nat, (x <<< 7) &&& 0x80 = (x &&& 1) <<< 7 from fun x => by
        rw [show (0x80 : Nat) = 1 <<< 7 from rfl, shiftLeft_and_shiftLeft],
      show ∀ x : Nat, (x <<< 6) &&& 0x40 = (x &&& 1) <<< 6 from fun x => by
        rw [show (0x40 : Nat) = 1 <<< 6 from rfl, shiftLeft_and_shiftLeft],
      show ∀ x : Nat, (x <<< 5) &&& 0x20 = (x &&& 1) <<< 5 from fun x => by
        rw [show (0x20 : Nat) = 1 <<< 5 from rfl, shiftLeft_and_shiftLeft],
      show ∀ x : Nat, (x <<< 4) &&& 0x10 = (x &&& 1) <<< 4 from fun x => by
        rw [show (0x10 : Nat) = 1 <<< 4 from rfl, shiftLeft_and_shiftLeft],
      show ∀ x : Nat, (x <<< 3) &&& 0x08 = (x &&& 1) <<< 3 from fun x => by
        rw [show (0x08 : Nat) = 1 <<< 3 from rfl, shiftLeft_and_shiftLeft],
      show ∀ x : Nat, (x <<< 2) &&& 0x04 = (x &&& 1) <<< 2 from fun x => by
        rw [show (0x04 : Nat) = 1 <<< 2 from rfl, shiftLeft_and_shiftLeft],
      show ∀ x : Nat, (x <<< 1) &&& 0x02 = (x &&& 1) <<< 1 from fun x => by
        rw [show (0x02 : Nat) = 1 <<< 1 from rfl, shiftLeft_and_shiftLeft],
      show (0x01 : Nat) = 1 from rfl, h0, h1, h2, h3, h4, h5, h6, h7]

/-- One hashing step is injective in the running state (31 is odd, hence
invertible mod 2^64). -/
theorem dhash_step_ne (s1 s2 b : Nat) (h1 : s1 < 2 ^ 64) (h2 : s2 < 2 ^ 64)
    (hne : s1 ≠ s2) : (s1 * 31 + b) % 2 ^ 64 ≠ (s2 * 31 + b) % 2 ^ 64 := by
  intro heq
  have hmod : s1 * 31 ≡ s2 * 31 [MOD 2 ^ 64] :=
    Nat.ModEq.add_right_cancel rfl heq
  have hcop : Nat.gcd (2 ^ 64) 31 = 1 := by decide
  have hfin : s1 % 2 ^ 64 = s2 % 2 ^ 64 :=
    Nat.ModEq.cancel_right_of_coprime hcop hmod
  rw [Nat.mod_eq_of_lt h1, Nat.mod_eq_of_lt h2] at hfin
  exact hne hfin

/-- One hashing step is injective in the incoming byte below 2^64. -/
theorem dhash_step_byte_ne (s x y : Nat) (hx : x < 2 ^ 64) (hy : y < 2 ^ 64)
    (hne : x ≠ y) : (s * 31 + x) % 2 ^ 64 ≠ (s * 31 + y) % 2 ^ 64 := by
  intro heq
  have hmod : x % 2 ^ 64 = y % 2 ^ 64 := Nat.ModEq.add_left_cancel rfl heq
  rw [Nat.mod_eq_of_lt hx, Nat.mod_eq_of_lt hy] at hmod
  exact hne hmod

/-- Distinct running states stay distinct through the rest of the stream. -/
theorem dhash_foldl_ne (l : List Nat) : ∀ s1 s2 : Nat, s1 < 2 ^ 64 → s2 < 2 ^ 64 →
    s1 ≠ s2 →
    l.foldl (fun state b => (state * 31 + b) % 2 ^ 64) s1 ≠
      l.foldl (fun state b => (state * 31 + b) % 2 ^ 64) s2 := by
  induction l with
  | nil => intro s1 s2 _ _ hne; simpa using hne
  | cons x xs ih =>
    intro s1 s2 h1 h2 hne
    simp only [List.foldl_cons]
    exact ih _ _ (Nat.mod_lt _ (by norm_num)) (Nat.mod_lt _ (by norm_num))
      (dhash_step_ne s1 s2 x h1 h2 hne)

/-- Changing one byte of a stream (keeping its length) changes the checksum. -/
theorem dhash_ne_single_diff (pre post : List Nat) (x y : Nat)
    (hx : x < 2 ^ 64) (hy : y < 2 ^ 64) (hne : x ≠ y) :
    dhash (pre ++ x :: post) ≠ dhash (pre ++ y :: post) := by
  unfold dhash
  rw [List.foldl_append, List.foldl_append, List.foldl_cons, List.foldl_cons]
  exact dhash_foldl_ne post _ _ (Nat.mod_lt _ (by norm_num))
    (Nat.mod_lt _ (by norm_num)) (dhash_step_byte_ne _ x y hx hy hne)

/-- Setting one carrier whose embedded low bits change, inside the used
payload region, changes exactly one recovered byte. -/
theorem decode_zip_flatten_set (g : ByteSplitGranularity) :
    ∀ (bs cover rest : List Nat) (i v : Nat),
      (∀ b ∈ bs, b < 256) →
      ((bs.map (fun b => split_byte g b)).flatten).length ≤ cover.length →
      i < ((bs.map (fun b => split_byte g b)).flatten).length →
      v &&& (2 ^ g.toU8 - 1) ≠
        (List.zipWith (fun l r => zip_bytes g l r) cover
          ((bs.map (fun b => split_byte g b)).flatten)).getD i 0 &&&
          (2 ^ g.toU8 - 1) →
      ∃ pre b b2 post, bs = pre ++ b :: post ∧ b < 256 ∧ b2 < 256 ∧ b2 ≠ b ∧
        ((chunksOf (8 / g.toU8) ((List.zipWith (fun l r => zip_bytes g l r) cover
            ((bs.map (fun b => split_byte g b)).flatten)).set i v ++ rest)).take
          bs.length).map (fun chunk => merge_bytes g chunk) = pre ++ b2 :: post := by
  intro bs
  induction bs with
  | nil =>
    intro cover rest i v _ _ hi _
    simp at hi
  | cons b bs2 ih =>
    intro cover rest i v hb hlen hi hlow
    have hk : 0 < 8 / g.toU8 := by cases g <;> decide
    have hsl : (split_byte g b).length = 8 / g.toU8 := split_byte_length g b
    have hb0 : b < 256 := hb b (List.mem_cons_self b bs2)
    simp only [List.map_cons, List.flatten_cons, List.length_append, hsl] at hlen hi
    simp only [List.map_cons, List.flatten_cons] at hlow ⊢
    have hcov : 8 / g.toU8 ≤ cover.length := by omega
    have htk : (cover.take (8 / g.toU8)).length = (split_byte g b).length := by
      rw [hsl, List.length_take]
      omega
    have hzip : List.zipWith (fun l r => zip_bytes g l r) cover
        (split_byte g b ++ (bs2.map (fun b => split_byte g b)).flatten) =
        List.zipWith (fun l r => zip_bytes g l r) (cover.take (8 / g.toU8))
          (split_byte g b) ++
        List.zipWith (fun l r => zip_bytes g l r) (cover.drop (8 / g.toU8))
          ((bs2.map (fun b => split_byte g b)).flatten) := by
      conv_lhs => rw [← List.take_append_drop (8 / g.toU8) cover]
      exact List.zipWith_append _ _ _ _ _ htk
    have hZ1len : (List.zipWith (fun l r => zip_bytes g l r)
        (cover.take (8 / g.toU8)) (split_byte g b)).length = 8 / g.toU8 := by
      rw [List.length_zipWith, htk, hsl]
      omega
    rw [hzip] at hlow ⊢
    rcases Nat.lt_or_ge i (8 / g.toU8) with hik | hik
    · -- the tampered carrier lies in the first chunk
      rw [getD_append_left _ _ i (by rw [hZ1len]; omega),
        getD_zipWith _ _ _ i (by rw [List.length_take]; omega) (by rw [hsl]; omega)]
        at hlow
      have hsublt : (split_byte g b).getD i 0 < 2 ^ g.toU8 :=
        split_byte_lt g b hb0 _ (getD_mem _ i (by rw [hsl]; omega))
      have hlow2 : v &&& (2 ^ g.toU8 - 1) ≠ (split_byte g b).getD i 0 := by
        rw [zip_low, Nat.and_pow_two_sub_one_of_lt_two_pow hsublt] at hlow
        exact hlow
      refine ⟨[], b, merge_bytes g ((List.zipWith (fun l r => zip_bytes g l r)
        (cover.take (8 / g.toU8)) (split_byte g b)).set i v), bs2, rfl, hb0,
        merge_lt _ _, ?_, ?_⟩
      · -- the merged tampered chunk differs from b
        intro heq
        have hm1 : merge_bytes g ((List.zipWith (fun l r => zip_bytes g l r)
            (cover.take (8 / g.toU8)) (split_byte g b)).set i v) =
            merge_bytes g ((split_byte g b).set i (v &&& (2 ^ g.toU8 - 1))) := by
          apply merge_congr_low
          intro m hm
          rcases eq_or_ne i m with rfl | hne
          · rw [getD_set_self _ _ _ (by rw [hZ1len]; omega),
              getD_set_self _ _ _ (by rw [hsl]; omega),
              Nat.and_assoc, Nat.and_self]
          · rw [getD_set_ne _ _ _ _ hne, getD_set_ne _ _ _ _ hne,
              getD_zipWith _ _ _ m (by rw [List.length_take]; omega)
                (by rw [hsl]; omega),
              zip_low]
        have hsm : split_byte g (merge_bytes g
            ((split_byte g b).set i (v &&& (2 ^ g.toU8 - 1)))) =
            (split_byte g b).set i (v &&& (2 ^ g.toU8 - 1)) := by
          apply split_merge_norm
          · rw [List.length_set, hsl]
          · intro x hx
            rcases List.mem_or_eq_of_mem_set hx with h | h
            · exact split_byte_lt g b hb0 x h
            · rw [h]
              exact lt_of_le_of_lt Nat.and_le_right (by
                have := Nat.pos_pow_of_pos (g.toU8) (show 0 < 2 by norm_num)
                omega)
        have hspliteq : split_byte g b =
            (split_byte g b).set i (v &&& (2 ^ g.toU8 - 1)) := by
          conv_lhs => rw [← heq]
          rw [hm1, hsm]
        have hgd := congrArg (fun l => l.getD i 0) hspliteq
        simp only at hgd
        rw [getD_set_self _ _ _ (by rw [hsl]; omega)] at hgd
        exact hlow2 hgd.symm
      · -- the rest of the stream decodes unchanged
        rw [List.set_append_left _ _ (by rw [hZ1len]; omega), List.append_assoc,
          chunksOf_append _ hk _ _ (by rw [List.length_set, hZ1len]),
          List.length_cons, List.take_succ_cons, List.map_cons, List.nil_append]
        congr 1
        exact decode_zip_flatten g bs2 (cover.drop (8 / g.toU8)) rest
          (fun x hx => hb x (List.mem_cons_of_mem b hx))
          (by rw [List.length_drop]; omega)
    · -- the tampered carrier lies beyond the first chunk
      rw [getD_append_right _ _ i (by rw [hZ1len]; omega), hZ1len] at hlow
      obtain ⟨pre, bb, b2, post, hbs2, hbb, hb2, hneq, hdec⟩ :=
        ih (cover.drop (8 / g.toU8)) rest (i - 8 / g.toU8) v
          (fun x hx => hb x (List.mem_cons_of_mem b hx))
          (by rw [List.length_drop]; omega)
          (by omega)
          hlow
      refine ⟨b :: pre, bb, b2, post, by rw [hbs2]; rfl, hbb, hb2, hneq, ?_⟩
      rw [List.set_append_right _ _ (by rw [hZ1len]; omega), hZ1len,
        List.append_assoc,
        chunksOf_append _ hk _ _ (by rw [hZ1len]),
        List.length_cons, List.take_succ_cons, List.map_cons,
        merge_zip_split g _ b hb0 (by rw [List.length_take]; omega),
        hdec, List.cons_append]

/-! ### Claim theorems -/

/-- C2: for every granularity g and byte b, split_byte produces exactly
8/depth(g) sub-codes, each in [0, 2^depth(g)), ordered from the most
significant depth(g)-bit group of b to the least significant, and
merge_bytes(g, split_byte(g, b)) = b. -/
theorem claim_C2_split_merge (g : ByteSplitGranularity) (b : Nat) (hb : b < 256) :
    (split_byte g b).length = 8 / g.toU8 ∧
    (∀ x ∈ split_byte g b, x < 2 ^ g.toU8) ∧
    split_byte g b =
      (List.range (8 / g.toU8)).map
        (fun i => b / 2 ^ (8 - g.toU8 * (i + 1)) % 2 ^ g.toU8) ∧
    merge_bytes g (split_byte g b) = b :=
  ⟨split_byte_length g b, split_byte_lt g b hb, split_byte_spec g b hb,
    merge_split_byte g b hb⟩

/-- Witness for C2 at granularity TwoBits and byte 0xEC. -/
theorem claim_C2_split_merge_witness :
    (0xEC : Nat) < 256 ∧
    ((split_byte .TwoBits 0xEC).length = 8 / ByteSplitGranularity.toU8 .TwoBits ∧
      (∀ x ∈ split_byte .TwoBits 0xEC, x < 2 ^ ByteSplitGranularity.toU8 .TwoBits) ∧
      split_byte .TwoBits 0xEC =
        (List.range (8 / ByteSplitGranularity.toU8 .TwoBits)).map
          (fun i => 0xEC / 2 ^ (8 - ByteSplitGranularity.toU8 .TwoBits * (i + 1)) %
            2 ^ ByteSplitGranularity.toU8 .TwoBits) ∧
      merge_bytes .TwoBits (split_byte .TwoBits 0xEC) = 0xEC) :=
  ⟨by decide, claim_C2_split_merge .TwoBits 0xEC (by decide)⟩

/-- C3: deserializing the 40-byte serialization of any valid header (magic
0xBEAD, version 1, any 64-bit byte count and checksum, any compression mode
and granularity) succeeds and returns the header unchanged. -/
theorem claim_C3_header_roundtrip (h : DataHeader) (hm : h.magic = MAGIC)
    (hv : h.version = VERSION) (hbc : h.bytes_count < 2 ^ 64)
    (hdh : h.data_hash < 2 ^ 64) :
    DataHeader.tryFrom h.serialize = .ok h :=
  tryFrom_serialize h hm hv hbc hdh

/-- Witness for C3 at a concrete header. -/
theorem claim_C3_header_roundtrip_witness :
    (DataHeader.mk 0xBEAD 0x1 5 77 .Gzip .TwoBits).magic = MAGIC ∧
    (DataHeader.mk 0xBEAD 0x1 5 77 .Gzip .TwoBits).version = VERSION ∧
    (DataHeader.mk 0xBEAD 0x1 5 77 .Gzip .TwoBits).bytes_count < 2 ^ 64 ∧
    (DataHeader.mk 0xBEAD 0x1 5 77 .Gzip .TwoBits).data_hash < 2 ^ 64 ∧
    DataHeader.tryFrom (DataHeader.mk 0xBEAD 0x1 5 77 .Gzip .TwoBits).serialize =
      .ok (DataHeader.mk 0xBEAD 0x1 5 77 .Gzip .TwoBits) :=
  ⟨rfl, rfl, by decide, by decide,
    claim_C3_header_roundtrip _ rfl rfl (by decide) (by decide)⟩

/-- C4: zip_bytes keeps the high (8 - depth) bits of the carrier byte L,
sets the low depth bits to R's low depth bits, and zipping the same sub-code
twice yields the same byte. -/
theorem claim_C4_zip (g : ByteSplitGranularity) (L R : Nat) (hL : L < 256) :
    zip_bytes g L R >>> g.toU8 = L >>> g.toU8 ∧
    zip_bytes g L R &&& (2 ^ g.toU8 - 1) = R &&& (2 ^ g.toU8 - 1) ∧
    zip_bytes g (zip_bytes g L R) R = zip_bytes g L R :=
  ⟨zip_high g L R hL, zip_low g L R, zip_idem g L R⟩

/-- Witness for C4 at granularity OneBit, L = 0xF8, R = 0x01. -/
theorem claim_C4_zip_witness :
    (0xF8 : Nat) < 256 ∧
    (zip_bytes .OneBit 0xF8 0x01 >>> ByteSplitGranularity.toU8 .OneBit =
        0xF8 >>> ByteSplitGranularity.toU8 .OneBit ∧
      zip_bytes .OneBit 0xF8 0x01 &&& (2 ^ ByteSplitGranularity.toU8 .OneBit - 1) =
        0x01 &&& (2 ^ ByteSplitGranularity.toU8 .OneBit - 1) ∧
      zip_bytes .OneBit (zip_bytes .OneBit 0xF8 0x01) 0x01 =
        zip_bytes .OneBit 0xF8 0x01) :=
  ⟨by decide, claim_C4_zip .OneBit 0xF8 0x01 (by decide)⟩

/-- C9 counterexample: from_nibbles does not ignore the high bits of its
input bytes — an input whose last byte is 0xF0 decodes differently from its
low-nibble masking, so the claim as stated is false. -/
theorem claim_C9_counterexample :
    NibbleNumber.toU64 [0, 0, 0, 0, 0, 0, 0, 0, 0, 0, 0, 0, 0, 0, 0, 0xF0] ≠
      NibbleNumber.toU64
        (([0, 0, 0, 0, 0, 0, 0, 0, 0, 0, 0, 0, 0, 0, 0, 0xF0] : List Nat).map
          (fun x => x &&& 0x0F)) := by decide

/-- C9 amended: from_nibbles itself folds whole bytes into the result (a set
high bit of byte i leaks into the next nibble position, and byte 0's high
bits vanish only by 64-bit overflow), but the decoder masks every byte to its
low 4 bits before from_nibbles, so header extraction depends only on the low
4 bits of each carrier byte. -/
theorem claim_C9_extract_header_masks (input : List Nat) :
    Decoder.extract_header input =
      Decoder.extract_header (input.map (fun x => x &&& 0x0F)) := by
  unfold Decoder.extract_header
  rw [List.map_map]
  congr 1
  apply List.map_congr_left
  intro x _
  show x &&& 0x0F = (x &&& 0x0F) &&& 0x0F
  rw [Nat.and_assoc, show ((0x0F : Nat) &&& 0x0F) = 0x0F from rfl]

/-- C1 (amended): for every payload P, granularity g, compression mode c, and
a cover carrier array long enough to hold the 40 header carriers plus all of
P's sub-codes after optional compression, and with the embedded stream below
2^31 bytes -- where the source's inferred-i32 byte counter is exact --
decoding the carrier array produced by encode succeeds and returns exactly P.
At 2^31 bytes the counter overflows (claim_C1_counterexample) and the
round-trip fails.  The gzip collaborator is external (spec, section 6) and
enters as the pair (compress, decompress) assumed to round-trip. -/
theorem claim_C1_encode_decode_roundtrip (c : CompressInput)
    (g : ByteSplitGranularity) (compress : List Nat → List Nat)
    (decompress : List Nat → Except StegError (List Nat)) (cover P : List Nat)
    (hbytes : ∀ b ∈ payloadStream c compress P, b < 256)
    (hlen : (payloadStream c compress P).length < 2 ^ 31)
    (hcap : HEADER_LENGTH + (payloadStream c compress P).length * (8 / g.toU8) ≤
      cover.length)
    (hgz : c = CompressInput.Gzip → decompress (compress P) = .ok P) :
    ∃ out, (Encoder.new c g).encode compress cover P = .ok out ∧
      Decoder.uncover_from decompress out = some (.ok P) := by
  have hS : payloadStream (Encoder.new c g).compress_input compress P =
      payloadStream c compress P := rfl
  have hfit : ((Encoder.new c g).encode_data
      (payloadStream (Encoder.new c g).compress_input compress P)).len ≤
      cover.length := by
    rw [hS, encode_data_eq]
    show ((DataHeader.mk _ _ _ _ _ _).serialize).length + _ ≤ _
    rw [serialize_length, flatten_split_length]
    simpa [HEADER_LENGTH] using hcap
  refine ⟨_, encode_eq_ok (Encoder.new c g) compress cover P hfit, ?_⟩
  rw [hS, uncover_merge_into c g decompress cover (payloadStream c compress P)
    hbytes hlen hcap]
  cases c with
  | NoCompress => rfl
  | Gzip =>
    rw [if_pos rfl]
    exact congrArg some (hgz rfl)

/-- Witness for C1: the "Hey!" payload at 2-bit granularity, no compression,
on a 56-carrier cover (exactly 40 + 16 carriers). -/
theorem claim_C1_encode_decode_roundtrip_witness :
    (∀ b ∈ payloadStream .NoCompress (fun l => l) [0x48, 0x65, 0x79, 0x21], b < 256) ∧
    (payloadStream .NoCompress (fun l => l) [0x48, 0x65, 0x79, 0x21]).length < 2 ^ 31 ∧
    HEADER_LENGTH + (payloadStream .NoCompress (fun l => l)
      [0x48, 0x65, 0x79, 0x21]).length *
        (8 / ByteSplitGranularity.toU8 .TwoBits) ≤ (List.replicate 56 0xAB).length ∧
    (∃ out, (Encoder.new .NoCompress .TwoBits).encode (fun l => l)
        (List.replicate 56 0xAB) [0x48, 0x65, 0x79, 0x21] = .ok out ∧
      Decoder.uncover_from (fun l => .ok l) out =
        some (.ok [0x48, 0x65, 0x79, 0x21])) :=
  ⟨by decide, by decide, by decide,
    claim_C1_encode_decode_roundtrip .NoCompress .TwoBits (fun l => l)
      (fun l => .ok l) (List.replicate 56 0xAB) [0x48, 0x65, 0x79, 0x21]
      (by decide) (by decide) (by decide) (fun h => nomatch h)⟩

/-- At a 2^31-byte stream the wrapped count makes decode reject the exactly
fitting carrier: the helper behind claim_C1_counterexample, stated over any
stream and cover of the right lengths so that no 2^31-element list is ever
evaluated. -/
theorem encode_wrapped_too_small (cover S : List Nat)
    (hSlen : S.length = 2 ^ 31) (hcovlen : cover.length = 40 + 2 ^ 32) :
    ∃ out, (Encoder.new CompressInput.NoCompress
        ByteSplitGranularity.FourBits).encode (fun l => l) cover S =
      .ok out ∧
      Decoder.uncover_from Except.ok out = some (.error .dataTooSmall) := by
  set hd : DataHeader := DataHeader.mk MAGIC VERSION (2 ^ 64 - 2 ^ 32 + 2 ^ 31)
    (dhash S) CompressInput.NoCompress ByteSplitGranularity.FourBits with hhd
  set H := hd.serialize with hH
  set D := (S.map (fun b => split_byte ByteSplitGranularity.FourBits b)).flatten
    with hD
  have hDlen : D.length = 2 ^ 32 := by
    rw [hD, flatten_split_length, hSlen]
    decide
  have hHlen : H.length = 40 := serialize_length hd
  have hwrap : i32CountAsU64 S.length = 2 ^ 64 - 2 ^ 32 + 2 ^ 31 := by
    rw [hSlen]
    decide
  have hS : payloadStream (Encoder.new CompressInput.NoCompress
      ByteSplitGranularity.FourBits).compress_input (fun l => l) S = S := rfl
  have hfit : ((Encoder.new CompressInput.NoCompress
      ByteSplitGranularity.FourBits).encode_data
      (payloadStream (Encoder.new CompressInput.NoCompress
        ByteSplitGranularity.FourBits).compress_input (fun l => l) S)).len ≤
      cover.length := by
    rw [hS]
    have hlen40 : ((Encoder.new CompressInput.NoCompress
        ByteSplitGranularity.FourBits).encode_data S).len = 40 + D.length := by
      simp only [encode_data_eq, EncodeOutput.len, Encoder.new, serialize_length]
    rw [hlen40, hDlen, hcovlen]
  refine ⟨_, encode_eq_ok _ (fun l => l) cover S hfit, ?_⟩
  rw [hS]
  set mid := (cover.drop HEADER_LENGTH).take D.length with hmid
  have hmidlen : mid.length = D.length := by
    rw [hmid, List.length_take, List.length_drop, hcovlen, hDlen]
    simp only [HEADER_LENGTH]
    omega
  set A := BytesZipper.merge_into (cover.take HEADER_LENGTH) H .FourBits with hA
  set B := BytesZipper.merge_into mid D .FourBits with hB
  set C := cover.drop (HEADER_LENGTH + D.length) with hC
  have hmerge : (Encoder.new CompressInput.NoCompress
      ByteSplitGranularity.FourBits).merge_into cover
      ((Encoder.new CompressInput.NoCompress
        ByteSplitGranularity.FourBits).encode_data S) = A ++ (B ++ C) := by
    rw [encode_data_eq, hwrap, hA, hB, hC, hmid, hH, hD, hhd]
    simp only [Encoder.merge_into, Encoder.new]
    rw [List.append_assoc]
  have htakelen : (cover.take HEADER_LENGTH).length = 40 := by
    rw [List.length_take, hcovlen]
    simp only [HEADER_LENGTH]
    omega
  have hAlen : A.length = 40 := by
    rw [hA, BytesZipper.merge_into_length, htakelen]
  have hBlen : B.length = D.length := by
    rw [hB, BytesZipper.merge_into_length, hmidlen]
  have hElen : (A ++ (B ++ C)).length = cover.length := by
    simp only [List.length_append, hAlen, hBlen, hC, List.length_drop, hcovlen,
      hDlen]
    simp only [HEADER_LENGTH]
    omega
  have hAzip : A = List.zipWith (fun l r => zip_bytes .FourBits l r)
      (cover.take HEADER_LENGTH) H := by
    rw [hA, BytesZipper.merge_into]
    rw [show (cover.take HEADER_LENGTH).drop H.length = [] from by
      apply List.drop_eq_nil_of_le
      rw [htakelen, hHlen]]
    exact List.append_nil _
  have hdrop40 : (A ++ (B ++ C)).drop HEADER_LENGTH = B ++ C := by
    apply List.drop_left'
    rw [hAlen]
    rfl
  have htake40 : (A ++ (B ++ C)).take HEADER_LENGTH = A := by
    apply List.take_left'
    rw [hAlen]
    rfl
  have hheader : Decoder.extract_header ((A ++ (B ++ C)).take HEADER_LENGTH) =
      .ok hd := by
    rw [htake40, Decoder.extract_header, hAzip,
      map_mask_zipWith H (cover.take HEADER_LENGTH) (serialize_lt16 hd)
        (by rw [htakelen, hHlen])]
    exact tryFrom_serialize hd rfl rfl
      (show (2 : Nat) ^ 64 - 2 ^ 32 + 2 ^ 31 < 2 ^ 64 from by decide)
      (dhash_lt S)
  rw [hmerge, uncover_from_with_header Except.ok _ hd
    (by rw [hElen, hcovlen]; simp only [HEADER_LENGTH]; omega) hheader]
  simp only [show hd.granularity = ByteSplitGranularity.FourBits from rfl,
    show hd.bytes_count = 2 ^ 64 - 2 ^ 32 + 2 ^ 31 from rfl, hdrop40]
  rw [if_pos (show (B ++ C).length <
      (2 ^ 64 - 2 ^ 32 + 2 ^ 31) * 2 % 2 ^ 64 from by
    have hBC : (B ++ C).length = 2 ^ 32 := by
      rw [List.length_append, hBlen, hC, List.length_drop, hcovlen, hDlen]
      simp only [HEADER_LENGTH]
      omega
    rw [hBC]
    decide)]

/-- C1 counterexample: a 2^31-byte payload, exactly filling a 40 + 2^32
carrier cover at 4-bit granularity, does not round-trip: the inferred-i32
byte counter wraps and `as u64` sign-extends it to 2^64 - 2^32 + 2^31, the
usize minimum size wraps to 2^64 - 2^33 + 2^32, and decode rejects the
carrier as too small instead of returning the payload (debug builds panic at
the counter increment instead). -/
theorem claim_C1_counterexample :
    ∃ out, (Encoder.new CompressInput.NoCompress
        ByteSplitGranularity.FourBits).encode (fun l => l)
        (List.replicate (40 + 2 ^ 32) 0) (List.replicate (2 ^ 31) 0) =
      .ok out ∧
      Decoder.uncover_from Except.ok out = some (.error .dataTooSmall) :=
  encode_wrapped_too_small (List.replicate (40 + 2 ^ 32) 0)
    (List.replicate (2 ^ 31) 0)
    (by rw [List.length_replicate]) (by rw [List.length_replicate])

/-- C5: encode succeeds exactly when 40 + (sub-code count) fits in the cover
carrier array; a payload whose header-plus-split size exactly equals the
cover length succeeds, and one that exceeds it fails with a capacity error
identifying both sizes, without any partial embedding (the error carries no
mutated carrier array). -/
theorem claim_C5_capacity (c : CompressInput) (g : ByteSplitGranularity)
    (compress : List Nat → List Nat) (cover P : List Nat) :
    ((∃ out, (Encoder.new c g).encode compress cover P = .ok out) ↔
      HEADER_LENGTH + ((payloadStream c compress P).map
        (fun b => split_byte g b)).flatten.length ≤ cover.length) ∧
    (cover.length < HEADER_LENGTH + ((payloadStream c compress P).map
        (fun b => split_byte g b)).flatten.length →
      (Encoder.new c g).encode compress cover P =
        .error (.capacityError cover.length
          (HEADER_LENGTH + ((payloadStream c compress P).map
            (fun b => split_byte g b)).flatten.length))) := by
  have hS : payloadStream (Encoder.new c g).compress_input compress P =
      payloadStream c compress P := rfl
  have hlen_eq : ((Encoder.new c g).encode_data
      (payloadStream (Encoder.new c g).compress_input compress P)).len =
      HEADER_LENGTH + ((payloadStream c compress P).map
        (fun b => split_byte g b)).flatten.length := by
    rw [hS, encode_data_eq]
    show ((DataHeader.mk _ _ _ _ _ _).serialize).length + _ = _
    rw [serialize_length]
    rfl
  constructor
  · constructor
    · rintro ⟨out, hout⟩
      by_contra hnot
      rw [encode_eq_err (Encoder.new c g) compress cover P (by omega)] at hout
      cases hout
    · intro hle
      exact ⟨_, encode_eq_ok (Encoder.new c g) compress cover P (by omega)⟩
  · intro hlt
    rw [encode_eq_err (Encoder.new c g) compress cover P (by omega), hlen_eq]

/-- Witness for C5: a 2-byte-encoded payload succeeds on a 42-carrier cover
(exact fit) and fails on a 41-carrier cover with the capacity error naming
41 and 42. -/
theorem claim_C5_capacity_witness :
    (∃ out, (Encoder.new .NoCompress .FourBits).encode (fun l => l)
      (List.replicate 42 0) [5] = .ok out) ∧
    (Encoder.new .NoCompress .FourBits).encode (fun l => l)
        (List.replicate 41 0) [5] =
      .error (.capacityError (List.replicate 41 0).length
        (HEADER_LENGTH + (((payloadStream .NoCompress (fun l => l) [5]).map
          (fun b => split_byte .FourBits b)).flatten.length))) :=
  ⟨(claim_C5_capacity .NoCompress .FourBits (fun l => l)
      (List.replicate 42 0) [5]).1.mpr (by decide),
    (claim_C5_capacity .NoCompress .FourBits (fun l => l)
      (List.replicate 41 0) [5]).2 (by decide)⟩

/-- C8 (code bug): a carrier array shorter than 40 is rejected as "header not
present"; one whose header parses but whose remaining carriers number fewer
than byte_count x (8/granularity_depth) is rejected as a size-consistency
error PROVIDED that product fits in 64 bits.  The source computes it in
`usize`, so a forged header with a huge byte count wraps the product, slips
past the check, and reaches an out-of-bounds panic in `merge_bytes`
(claim_C8_counterexample): the spec's "in neither case does decode panic"
describes the intended guard, which the code's wrapping arithmetic fails to
implement. -/
theorem claim_C8_truncation (decompress : List Nat → Except StegError (List Nat))
    (input : List Nat) :
    (input.length < HEADER_LENGTH →
      Decoder.uncover_from decompress input =
        some (.error .headerNotPresent)) ∧
    (∀ hd : DataHeader, HEADER_LENGTH ≤ input.length →
      Decoder.extract_header (input.take HEADER_LENGTH) = .ok hd →
      input.length - HEADER_LENGTH < hd.bytes_count * (8 / hd.granularity.toU8) →
      hd.bytes_count * (8 / hd.granularity.toU8) < 2 ^ 64 →
      Decoder.uncover_from decompress input = some (.error .dataTooSmall)) := by
  constructor
  · intro hshort
    rw [Decoder.uncover_from.eq_def, if_pos hshort]
  · intro hd h40 hhd hlt hnowrap
    rw [uncover_from_with_header decompress input hd (Nat.not_lt.mpr h40) hhd]
    obtain ⟨m, v, bc, dh, ci, gr⟩ := hd
    simp only [] at hlt hnowrap ⊢
    cases gr <;>
      (simp only [ByteSplitGranularity.toU8] at hlt hnowrap ⊢
       rw [if_pos (by rw [List.length_drop]; omega)])

/-- Witness for C8: the empty carrier array is rejected as missing header,
and a bare 40-carrier header declaring one payload byte (a product far below
2^64) is rejected as too small. -/
theorem claim_C8_truncation_witness :
    (([] : List Nat).length < HEADER_LENGTH ∧
      Decoder.uncover_from (fun l => .ok l) [] =
        some (.error .headerNotPresent)) ∧
    (HEADER_LENGTH ≤
        ((DataHeader.mk MAGIC VERSION 1 0 .NoCompress .FourBits).serialize).length ∧
      Decoder.extract_header
        (((DataHeader.mk MAGIC VERSION 1 0 .NoCompress .FourBits).serialize).take
          HEADER_LENGTH) = .ok (DataHeader.mk MAGIC VERSION 1 0 .NoCompress .FourBits) ∧
      (1 : Nat) * (8 / ByteSplitGranularity.FourBits.toU8) < 2 ^ 64 ∧
      Decoder.uncover_from (fun l => .ok l)
        ((DataHeader.mk MAGIC VERSION 1 0 .NoCompress .FourBits).serialize) =
        some (.error .dataTooSmall)) :=
  ⟨⟨by decide, (claim_C8_truncation (fun l => .ok l) []).1 (by decide)⟩,
    ⟨by decide, by decide, by decide,
      (claim_C8_truncation (fun l => .ok l) _).2
        (DataHeader.mk MAGIC VERSION 1 0 .NoCompress .FourBits)
        (by decide) (by decide) (by decide) (by decide)⟩⟩

/-- C8 counterexample (the code bug): a 141-carrier array whose forged header
declares 2^63 payload bytes at 4-bit granularity is strictly smaller than the
declared payload needs, yet the usize product 2^63 * 2 wraps to 0, the size
check passes, and decoding reaches a short final chunk -- an out-of-bounds
panic in `merge_bytes`, `none` in the model -- instead of the size error. -/
theorem claim_C8_counterexample :
    Decoder.extract_header
        (((DataHeader.mk MAGIC VERSION (2 ^ 63) 0 CompressInput.NoCompress
          ByteSplitGranularity.FourBits).serialize ++
            List.replicate 101 0).take HEADER_LENGTH) =
      Except.ok (DataHeader.mk MAGIC VERSION (2 ^ 63) 0 CompressInput.NoCompress
        ByteSplitGranularity.FourBits) ∧
    ((DataHeader.mk MAGIC VERSION (2 ^ 63) 0 CompressInput.NoCompress
        ByteSplitGranularity.FourBits).serialize ++
          List.replicate 101 0).length - HEADER_LENGTH <
      2 ^ 63 * (8 / ByteSplitGranularity.FourBits.toU8) ∧
    (2 ^ 63 * 2) % 2 ^ 64 = 0 ∧
    Decoder.uncover_from Except.ok
        ((DataHeader.mk MAGIC VERSION (2 ^ 63) 0 CompressInput.NoCompress
          ByteSplitGranularity.FourBits).serialize ++ List.replicate 101 0) =
      none := by
  decide

/-- C10: the first 40 cover carriers receive the serialized header nibbles
(the stored count being the i32-wrapped one the encoder computes) via zip at
4-bit granularity regardless of the payload granularity; carriers
[40, 40+len) receive the payload sub-codes via zip at the configured
granularity; written carriers keep their high bits, carriers at or beyond
40+len are unchanged, and the array length is unchanged. -/
theorem claim_C10_merge_layout (c : CompressInput) (g : ByteSplitGranularity)
    (compress : List Nat → List Nat) (cover P : List Nat)
    (hcov : ∀ b ∈ cover, b < 256)
    (hfit : HEADER_LENGTH + ((payloadStream c compress P).map
      (fun b => split_byte g b)).flatten.length ≤ cover.length) :
    ∃ out, (Encoder.new c g).encode compress cover P = .ok out ∧
      out.length = cover.length ∧
      (∀ p, p < HEADER_LENGTH →
        out.getD p 0 = zip_bytes .FourBits (cover.getD p 0)
          (((DataHeader.mk MAGIC VERSION
            (i32CountAsU64 (payloadStream c compress P).length)
            (dhash (payloadStream c compress P)) c g).serialize).getD p 0) ∧
        out.getD p 0 >>> 4 = cover.getD p 0 >>> 4) ∧
      (∀ p, HEADER_LENGTH ≤ p →
        p < HEADER_LENGTH + ((payloadStream c compress P).map
          (fun b => split_byte g b)).flatten.length →
        out.getD p 0 = zip_bytes g (cover.getD p 0)
          ((((payloadStream c compress P).map
            (fun b => split_byte g b)).flatten).getD (p - HEADER_LENGTH) 0) ∧
        out.getD p 0 >>> g.toU8 = cover.getD p 0 >>> g.toU8) ∧
      (∀ p, HEADER_LENGTH + ((payloadStream c compress P).map
          (fun b => split_byte g b)).flatten.length ≤ p →
        out.getD p 0 = cover.getD p 0) := by
  set S := payloadStream c compress P with hSdef
  set hdser := (DataHeader.mk MAGIC VERSION (i32CountAsU64 S.length)
    (dhash S) c g).serialize with hhdser
  set D := (S.map (fun b => split_byte g b)).flatten with hDdef
  have hHlen : hdser.length = 40 := serialize_length _
  have hfit40 : 40 + D.length ≤ cover.length := hfit
  have hS : payloadStream (Encoder.new c g).compress_input compress P = S := rfl
  have hed : (Encoder.new c g).encode_data S =
      { header := hdser, data := D } := rfl
  have hfitlen : ((Encoder.new c g).encode_data
      (payloadStream (Encoder.new c g).compress_input compress P)).len ≤
      cover.length := by
    rw [hS, hed]
    show hdser.length + D.length ≤ cover.length
    omega
  refine ⟨_, encode_eq_ok (Encoder.new c g) compress cover P hfitlen, ?_⟩
  rw [hS, hed, merge_into_parts]
  set mid := (cover.drop HEADER_LENGTH).take D.length with hmiddef
  have hmidlen : mid.length = D.length := by
    rw [hmiddef, List.length_take, List.length_drop]
    simp only [HEADER_LENGTH]
    omega
  have htklen : (cover.take HEADER_LENGTH).length = 40 := by
    rw [List.length_take]
    simp only [HEADER_LENGTH]
    omega
  show _ ∧ _ ∧ _ ∧ _
  have hAzip : BytesZipper.merge_into (cover.take HEADER_LENGTH) hdser .FourBits =
      List.zipWith (fun l r => zip_bytes .FourBits l r) (cover.take HEADER_LENGTH)
        hdser := by
    rw [BytesZipper.merge_into,
      show (cover.take HEADER_LENGTH).drop hdser.length = [] from by
        apply List.drop_eq_nil_of_le
        rw [htklen, hHlen]]
    exact List.append_nil _
  have hBzip : BytesZipper.merge_into mid D
      (Encoder.new c g).byte_split_level =
      List.zipWith (fun l r => zip_bytes g l r) mid D := by
    rw [BytesZipper.merge_into,
      show mid.drop D.length = [] from by
        apply List.drop_eq_nil_of_le
        rw [hmidlen],
      List.append_nil]
    simp only [Encoder.new]
  rw [hAzip, hBzip]
  have hAlen : (List.zipWith (fun l r => zip_bytes .FourBits l r)
      (cover.take HEADER_LENGTH) hdser).length = 40 := by
    rw [List.length_zipWith, htklen, hHlen]
    omega
  have hBlen : (List.zipWith (fun l r => zip_bytes g l r) mid D).length =
      D.length := by
    rw [List.length_zipWith, hmidlen]
    omega
  refine ⟨?_, ?_, ?_, ?_⟩
  · simp only [List.length_append, hAlen, hBlen, List.length_drop]
    simp only [HEADER_LENGTH]
    omega
  · intro p hp
    have hp40 : p < 40 := hp
    rw [getD_append_left _ _ p (by rw [hAlen]; omega),
      getD_zipWith _ _ _ p (by rw [htklen]; omega) (by rw [hHlen]; omega),
      getD_take cover HEADER_LENGTH p hp]
    refine ⟨rfl, ?_⟩
    exact zip_high .FourBits _ _ (hcov _ (getD_mem cover p (by omega)))
  · intro p hp1 hp2
    have hp40 : (40 : Nat) ≤ p := hp1
    have hpD : p - 40 < D.length := by
      simp only [HEADER_LENGTH] at hp2
      omega
    rw [getD_append_right _ _ p (by rw [hAlen]; omega), hAlen,
      getD_append_left _ _ _ (by rw [hBlen]; omega),
      getD_zipWith _ _ _ _ (by rw [hmidlen]; omega) (by omega),
      hmiddef, getD_take _ _ _ (by omega), getD_drop,
      show HEADER_LENGTH + (p - 40) = p from by simp only [HEADER_LENGTH]; omega]
    refine ⟨rfl, ?_⟩
    exact zip_high g _ _ (hcov _ (getD_mem cover p (by omega)))
  · intro p hp
    have hp40 : 40 + D.length ≤ p := hp
    rw [getD_append_right _ _ p (by rw [hAlen]; omega), hAlen,
      getD_append_right _ _ _ (by rw [hBlen]; omega), hBlen,
      getD_drop,
      show HEADER_LENGTH + D.length + (p - 40 - D.length) = p from by
        simp only [HEADER_LENGTH]
        omega]

/-- Witness for C10 at the "Hey!" payload, 2-bit granularity, 60-carrier
cover of 0xAB bytes. -/
theorem claim_C10_merge_layout_witness :
    (∀ b ∈ List.replicate 60 0xAB, b < 256) ∧
    HEADER_LENGTH + ((payloadStream .NoCompress (fun l => l)
      [0x48, 0x65, 0x79, 0x21]).map
        (fun b => split_byte .TwoBits b)).flatten.length ≤
      (List.replicate 60 0xAB).length ∧
    (∃ out, (Encoder.new .NoCompress .TwoBits).encode (fun l => l)
        (List.replicate 60 0xAB) [0x48, 0x65, 0x79, 0x21] = .ok out ∧
      out.length = (List.replicate 60 0xAB).length ∧
      (∀ p, p < HEADER_LENGTH →
        out.getD p 0 = zip_bytes .FourBits ((List.replicate 60 0xAB).getD p 0)
          (((DataHeader.mk MAGIC VERSION
            (i32CountAsU64 (payloadStream .NoCompress (fun l => l)
              [0x48, 0x65, 0x79, 0x21]).length)
            (dhash (payloadStream .NoCompress (fun l => l) [0x48, 0x65, 0x79, 0x21]))
            .NoCompress .TwoBits).serialize).getD p 0) ∧
        out.getD p 0 >>> 4 = (List.replicate 60 0xAB).getD p 0 >>> 4) ∧
      (∀ p, HEADER_LENGTH ≤ p →
        p < HEADER_LENGTH + ((payloadStream .NoCompress (fun l => l)
          [0x48, 0x65, 0x79, 0x21]).map
            (fun b => split_byte .TwoBits b)).flatten.length →
        out.getD p 0 = zip_bytes .TwoBits ((List.replicate 60 0xAB).getD p 0)
          ((((payloadStream .NoCompress (fun l => l) [0x48, 0x65, 0x79, 0x21]).map
            (fun b => split_byte .TwoBits b)).flatten).getD (p - HEADER_LENGTH) 0) ∧
        out.getD p 0 >>> ByteSplitGranularity.toU8 .TwoBits =
          (List.replicate 60 0xAB).getD p 0 >>> ByteSplitGranularity.toU8 .TwoBits) ∧
      (∀ p, HEADER_LENGTH + ((payloadStream .NoCompress (fun l => l)
          [0x48, 0x65, 0x79, 0x21]).map
            (fun b => split_byte .TwoBits b)).flatten.length ≤ p →
        out.getD p 0 = (List.replicate 60 0xAB).getD p 0)) :=
  ⟨by decide, by decide,
    claim_C10_merge_layout .NoCompress .TwoBits (fun l => l)
      (List.replicate 60 0xAB) [0x48, 0x65, 0x79, 0x21] (by decide) (by decide)⟩

/-- C6 (amended): the header fields record the byte count and checksum of the
byte stream that is actually embedded -- the compressed stream in Gzip mode,
the original payload otherwise.  Read back through the decoder, the stored
header of every successful encode is exactly
(MAGIC, VERSION, |stream|, dhash(stream), c, g) whenever the stream is
shorter than 2^31 bytes (beyond that the source's i32 counter wraps); in the
NoCompress mode this stream is the original payload, as the spec claims.  In
Gzip mode the counterexample refutes the spec wording "original, pre-split
payload bytes": the stored count and checksum are those of the compressed
stream. -/
theorem claim_C6_header_fields (c : CompressInput) (g : ByteSplitGranularity)
    (compress : List Nat → List Nat) (cover P out : List Nat)
    (hslen : (payloadStream c compress P).length < 2 ^ 31)
    (henc : (Encoder.new c g).encode compress cover P = Except.ok out) :
    Decoder.extract_header (out.take HEADER_LENGTH) =
      Except.ok (DataHeader.mk MAGIC VERSION
        ((payloadStream c compress P).length)
        (dhash (payloadStream c compress P)) c g) ∧
      (c = CompressInput.NoCompress → payloadStream c compress P = P) := by
  constructor
  · set S := payloadStream c compress P with hS0
    have hfit : ((Encoder.new c g).encode_data S).len ≤ cover.length := by
      by_contra hnf
      exact Except.noConfusion
        ((encode_eq_err (Encoder.new c g) compress cover P
          (show cover.length < ((Encoder.new c g).encode_data S).len from
            by omega)).symm.trans henc)
    have hout : out =
        (Encoder.new c g).merge_into cover ((Encoder.new c g).encode_data S) :=
      (Except.ok.inj ((encode_eq_ok (Encoder.new c g) compress cover P
        hfit).symm.trans henc)).symm
    set hd : DataHeader :=
      DataHeader.mk MAGIC VERSION S.length (dhash S) c g with hhd
    set H := hd.serialize with hH
    set D := (S.map (fun b => split_byte g b)).flatten with hD
    have hDlen : D.length = S.length * (8 / g.toU8) := flatten_split_length g S
    have hHlen : H.length = 40 := serialize_length hd
    have hcap40 : 40 + D.length ≤ cover.length := by
      have hlen40 : ((Encoder.new c g).encode_data S).len = 40 + D.length := by
        simp only [encode_data_eq, EncodeOutput.len, Encoder.new, serialize_length]
      omega
    set mid := (cover.drop HEADER_LENGTH).take D.length with hmid
    have hmidlen : mid.length = D.length := by
      rw [hmid, List.length_take, List.length_drop]
      simp only [HEADER_LENGTH]
      omega
    set A := BytesZipper.merge_into (cover.take HEADER_LENGTH) H .FourBits with hA
    set B := BytesZipper.merge_into mid D g with hB
    set C := cover.drop (HEADER_LENGTH + D.length) with hC
    have hmerge : (Encoder.new c g).merge_into cover
        ((Encoder.new c g).encode_data S) = A ++ (B ++ C) := by
      rw [encode_data_eq, i32CountAsU64_eq_of_lt S.length hslen, hA, hB, hC,
        hmid, hH, hD, hhd]
      simp only [Encoder.merge_into, Encoder.new]
      rw [List.append_assoc]
    have htakelen : (cover.take HEADER_LENGTH).length = 40 := by
      rw [List.length_take]
      simp only [HEADER_LENGTH]
      omega
    have hAlen : A.length = 40 := by
      rw [hA, BytesZipper.merge_into_length, htakelen]
    have hAzip : A = List.zipWith (fun l r => zip_bytes .FourBits l r)
        (cover.take HEADER_LENGTH) H := by
      rw [hA, BytesZipper.merge_into]
      rw [show (cover.take HEADER_LENGTH).drop H.length = [] from by
        apply List.drop_eq_nil_of_le
        rw [htakelen, hHlen]]
      exact List.append_nil _
    have htake40 : (A ++ (B ++ C)).take HEADER_LENGTH = A := by
      apply List.take_left'
      rw [hAlen]
      rfl
    rw [hout, hmerge, htake40, Decoder.extract_header, hAzip,
      map_mask_zipWith H (cover.take HEADER_LENGTH) (serialize_lt16 hd)
        (by rw [htakelen, hHlen])]
    exact tryFrom_serialize hd rfl rfl (show S.length < 2 ^ 64 from by omega)
      (dhash_lt S)
  · intro hc
    subst hc
    rfl

/-- C6 witness: a concrete NoCompress encode whose stored header carries the
payload length 1 and checksum dhash [72] of the original payload. -/
theorem claim_C6_header_fields_witness :
    Decoder.extract_header (([11, 14, 10, 13, 0, 1, 0, 0, 0, 0, 0, 0, 0, 0, 0,
        0, 0, 0, 0, 0, 0, 1, 0, 0, 0, 0, 0, 0, 0, 0, 0, 0, 0, 0, 0, 0, 4, 8, 0,
        4, 4, 8] : List Nat).take HEADER_LENGTH) =
      Except.ok (DataHeader.mk MAGIC VERSION
        ((payloadStream CompressInput.NoCompress (fun l => l) [72]).length)
        (dhash (payloadStream CompressInput.NoCompress (fun l => l) [72]))
        CompressInput.NoCompress ByteSplitGranularity.FourBits) ∧
      (CompressInput.NoCompress = CompressInput.NoCompress →
        payloadStream CompressInput.NoCompress (fun l => l) [72] = [72]) :=
  claim_C6_header_fields CompressInput.NoCompress ByteSplitGranularity.FourBits
    (fun l => l) (List.replicate 42 0) [72]
    [11, 14, 10, 13, 0, 1, 0, 0, 0, 0, 0, 0, 0, 0, 0, 0, 0, 0, 0, 0, 0, 1, 0,
      0, 0, 0, 0, 0, 0, 0, 0, 0, 0, 0, 0, 0, 4, 8, 0, 4, 4, 8]
    (by decide) (by decide)

/-- C6 counterexample: in Gzip mode the stored header describes the compressed
stream, not the original payload.  With the (spec-modelled, abstract)
compressor l ++ l and payload [7], the stored byte count is 2 (not 1 = |P|)
and the stored checksum is dhash [7, 7] = 224 (not dhash [7] = 7). -/
theorem claim_C6_counterexample :
    ((Encoder.new CompressInput.Gzip ByteSplitGranularity.FourBits).encode
        (fun l => l ++ l) (List.replicate 44 0) [7]).map
      (fun out => Decoder.extract_header (out.take HEADER_LENGTH)) =
      Except.ok (Except.ok (DataHeader.mk MAGIC VERSION 2 224
        CompressInput.Gzip ByteSplitGranularity.FourBits)) ∧
    ([7] : List Nat).length = 1 ∧ dhash [7] = 7 ∧
    (2 : Nat) ≠ 1 ∧ (224 : Nat) ≠ 7 := by
  decide

/-- C7 (amended): flipping a carrier bit in one of the low depth(g) (embedded)
bit positions of a carrier byte in the used payload region is always detected:
decode fails with an error, and in the NoCompress mode precisely with the
checksum error naming the recomputed checksum -- which provably differs from
the stored one -- and the stored checksum, so no partial data is returned.
The spec claim that flipping ANY payload-region carrier bit causes a checksum
failure is refuted by the counterexample: a flip of one of the 8 - depth(g)
high bits leaves the embedded sub-codes unchanged and decode still succeeds,
returning the correct payload (so decode still never returns wrong data). -/
theorem claim_C7_tamper_detected (c : CompressInput) (g : ByteSplitGranularity)
    (compress : List Nat → List Nat)
    (decompress : List Nat → Except StegError (List Nat))
    (cover P out : List Nat) (i j : Nat)
    (hstream : ∀ b ∈ payloadStream c compress P, b < 256)
    (hslen : (payloadStream c compress P).length < 2 ^ 31)
    (henc : (Encoder.new c g).encode compress cover P = Except.ok out)
    (hi : i < (payloadStream c compress P).length * (8 / g.toU8))
    (hj : j < g.toU8) :
    ∃ h1, h1 ≠ dhash (payloadStream c compress P) ∧
      (∃ e, Decoder.uncover_from decompress
          (out.set (HEADER_LENGTH + i)
            (out.getD (HEADER_LENGTH + i) 0 ^^^ 2 ^ j)) =
        some (Except.error e)) ∧
      (c = CompressInput.NoCompress →
        Decoder.uncover_from decompress
            (out.set (HEADER_LENGTH + i)
              (out.getD (HEADER_LENGTH + i) 0 ^^^ 2 ^ j)) =
          some (Except.error (StegError.hashMismatch h1
            (dhash (payloadStream c compress P))))) := by
  set S := payloadStream c compress P with hS0
  have hfit : ((Encoder.new c g).encode_data S).len ≤ cover.length := by
    by_contra hnf
    exact Except.noConfusion
      ((encode_eq_err (Encoder.new c g) compress cover P
        (show cover.length < ((Encoder.new c g).encode_data S).len from
          by omega)).symm.trans henc)
  have hout : out =
      (Encoder.new c g).merge_into cover ((Encoder.new c g).encode_data S) :=
    (Except.ok.inj ((encode_eq_ok (Encoder.new c g) compress cover P
      hfit).symm.trans henc)).symm
  have hk : 0 < 8 / g.toU8 := by cases g <;> decide
  set hd : DataHeader :=
    DataHeader.mk MAGIC VERSION S.length (dhash S) c g with hhd
  set H := hd.serialize with hH
  set D := (S.map (fun b => split_byte g b)).flatten with hD
  have hDlen : D.length = S.length * (8 / g.toU8) := flatten_split_length g S
  have hHlen : H.length = 40 := serialize_length hd
  have hcap40 : 40 + D.length ≤ cover.length := by
    have hlen40 : ((Encoder.new c g).encode_data S).len = 40 + D.length := by
      simp only [encode_data_eq, EncodeOutput.len, Encoder.new, serialize_length]
    omega
  set mid := (cover.drop HEADER_LENGTH).take D.length with hmid
  have hmidlen : mid.length = D.length := by
    rw [hmid, List.length_take, List.length_drop]
    simp only [HEADER_LENGTH]
    omega
  set A := BytesZipper.merge_into (cover.take HEADER_LENGTH) H .FourBits with hA
  set B := BytesZipper.merge_into mid D g with hB
  set C := cover.drop (HEADER_LENGTH + D.length) with hC
  have hmerge : (Encoder.new c g).merge_into cover
      ((Encoder.new c g).encode_data S) = A ++ (B ++ C) := by
    rw [encode_data_eq, i32CountAsU64_eq_of_lt S.length hslen, hA, hB, hC,
      hmid, hH, hD, hhd]
    simp only [Encoder.merge_into, Encoder.new]
    rw [List.append_assoc]
  have htakelen : (cover.take HEADER_LENGTH).length = 40 := by
    rw [List.length_take]
    simp only [HEADER_LENGTH]
    omega
  have hAlen : A.length = 40 := by
    rw [hA, BytesZipper.merge_into_length, htakelen]
  have hBlen : B.length = D.length := by
    rw [hB, BytesZipper.merge_into_length, hmidlen]
  have hAzip : A = List.zipWith (fun l r => zip_bytes .FourBits l r)
      (cover.take HEADER_LENGTH) H := by
    rw [hA, BytesZipper.merge_into]
    rw [show (cover.take HEADER_LENGTH).drop H.length = [] from by
      apply List.drop_eq_nil_of_le
      rw [htakelen, hHlen]]
    exact List.append_nil _
  have hBzip : B = List.zipWith (fun l r => zip_bytes g l r) mid D := by
    rw [hB, BytesZipper.merge_into]
    rw [show mid.drop D.length = [] from by
      apply List.drop_eq_nil_of_le
      rw [hmidlen]]
    exact List.append_nil _
  rw [hout, hmerge]
  have hgd : (A ++ (B ++ C)).getD (HEADER_LENGTH + i) 0 = B.getD i 0 := by
    rw [getD_append_right _ _ _ (by rw [hAlen]; simp only [HEADER_LENGTH]; omega),
      hAlen,
      show HEADER_LENGTH + i - 40 = i from by simp only [HEADER_LENGTH]; omega,
      getD_append_left _ _ _ (by rw [hBlen, hDlen]; exact hi)]
  rw [hgd]
  set v := B.getD i 0 ^^^ 2 ^ j with hv
  have hset : (A ++ (B ++ C)).set (HEADER_LENGTH + i) v =
      A ++ (B.set i v ++ C) := by
    rw [List.set_append_right _ _ (by rw [hAlen]; simp only [HEADER_LENGTH]; omega),
      hAlen,
      show HEADER_LENGTH + i - 40 = i from by simp only [HEADER_LENGTH]; omega,
      List.set_append_left _ _ (by rw [hBlen, hDlen]; exact hi)]
  rw [hset]
  obtain ⟨pre, b, b2, post, hSdec, hblt, hb2lt, hbne, hdec⟩ :=
    decode_zip_flatten_set g S mid C i v hstream
      (by rw [← hD, hmidlen])
      (by rw [← hD, hDlen]; exact hi)
      (by rw [hv, hBzip, hD]; exact xor_low_ne _ j g.toU8 hj)
  have hne : dhash (pre ++ b2 :: post) ≠ dhash S := by
    rw [hSdec]
    exact dhash_ne_single_diff pre post b2 b (lt_trans hb2lt (by norm_num))
      (lt_trans hblt (by norm_num)) hbne
  have hfull : ∀ ch ∈ (chunksOf (8 / hd.granularity.toU8)
      (B.set i v ++ C)).take hd.bytes_count,
      ch.length = 8 / hd.granularity.toU8 :=
    chunksOf_take_full (8 / g.toU8) hk S.length (B.set i v ++ C)
      (by rw [List.length_append, List.length_set, hBlen, hDlen]; omega)
  have hrecov : Decoder.decode_data (B.set i v ++ C) hd =
      some (pre ++ b2 :: post) := by
    rw [decode_data_some (B.set i v ++ C) hd hfull]
    refine congrArg some ?_
    show ((chunksOf (8 / g.toU8) (B.set i v ++ C)).take S.length).map
        (fun chunk => merge_bytes g chunk) = pre ++ b2 :: post
    rw [hBzip, hD]
    exact hdec
  have hndlen : (B.set i v ++ C).length = S.length * (8 / g.toU8) + C.length := by
    rw [List.length_append, List.length_set, hBlen, hDlen]
  have hlen2 : (A ++ (B.set i v ++ C)).length = cover.length := by
    rw [List.length_append, List.length_append, List.length_set, hAlen, hBlen,
      hC, List.length_drop]
    simp only [HEADER_LENGTH]
    omega
  have htake40 : (A ++ (B.set i v ++ C)).take HEADER_LENGTH = A := by
    apply List.take_left'
    rw [hAlen]
    rfl
  have hdrop40 : (A ++ (B.set i v ++ C)).drop HEADER_LENGTH = B.set i v ++ C := by
    apply List.drop_left'
    rw [hAlen]
    rfl
  have hheader : Decoder.extract_header
      ((A ++ (B.set i v ++ C)).take HEADER_LENGTH) = Except.ok hd := by
    rw [htake40, Decoder.extract_header, hAzip,
      map_mask_zipWith H (cover.take HEADER_LENGTH) (serialize_lt16 hd)
        (by rw [htakelen, hHlen])]
    exact tryFrom_serialize hd rfl rfl (show S.length < 2 ^ 64 from by omega)
      (dhash_lt S)
  have huncov : Decoder.uncover_from decompress (A ++ (B.set i v ++ C)) =
      some ((if c = CompressInput.Gzip then decompress (pre ++ b2 :: post)
        else Except.ok (pre ++ b2 :: post)) >>=
        fun _ => Except.error (StegError.hashMismatch (dhash (pre ++ b2 :: post))
          (dhash S))) := by
    rw [uncover_from_with_header decompress _ hd
      (by rw [hlen2]; simp only [HEADER_LENGTH]; omega) hheader]
    simp only [show hd.granularity = g from rfl,
      show hd.bytes_count = S.length from rfl,
      show hd.compress_input = c from rfl,
      show hd.data_hash = dhash S from rfl,
      hdrop40, hrecov]
    split
    · rename_i hlt
      exfalso
      cases g <;> simp only [ByteSplitGranularity.toU8] at hndlen hlt <;>
        rw [Nat.mod_eq_of_lt (by omega)] at hlt <;> omega
    · refine congrArg some ?_
      have hpure : ∀ x : List Nat,
          (pure x : Except StegError (List Nat)) = Except.ok x := fun x => rfl
      by_cases hcz : c = CompressInput.Gzip
      · rw [if_pos hcz, if_pos hcz]
        cases hdc : decompress (pre ++ b2 :: post) with
        | error e => rfl
        | ok d =>
          simp only [ok_bind]
          rfl
      · rw [if_neg hcz, if_neg hcz, hpure]
        simp only [ok_bind]
        rfl
  refine ⟨dhash (pre ++ b2 :: post), hne, ?_, ?_⟩
  · rw [huncov]
    cases hcomp : (if c = CompressInput.Gzip then decompress (pre ++ b2 :: post)
        else Except.ok (pre ++ b2 :: post)) with
    | error e => exact ⟨e, rfl⟩
    | ok d => exact ⟨_, rfl⟩
  · intro hc
    rw [huncov, hc,
      if_neg (show ¬ (CompressInput.NoCompress = CompressInput.Gzip) from
        by decide)]
    rfl

/-- C7 witness: on the concrete NoCompress/FourBits encode of [72] into a
42-byte zero cover, flipping bit 0 of the first payload-region carrier byte
makes decode fail with the checksum error. -/
theorem claim_C7_tamper_detected_witness :
    ∃ h1, h1 ≠ dhash (payloadStream CompressInput.NoCompress (fun l => l) [72]) ∧
      (∃ e, Decoder.uncover_from Except.ok
          (([11, 14, 10, 13, 0, 1, 0, 0, 0, 0, 0, 0, 0, 0, 0, 0, 0, 0, 0, 0, 0, 1,
          0, 0, 0, 0, 0, 0, 0, 0, 0, 0, 0, 0, 0, 0, 4, 8, 0, 4, 4, 8] : List Nat).set (HEADER_LENGTH + 0)
            (([11, 14, 10, 13, 0, 1, 0, 0, 0, 0, 0, 0, 0, 0, 0, 0, 0, 0, 0, 0, 0, 1,
          0, 0, 0, 0, 0, 0, 0, 0, 0, 0, 0, 0, 0, 0, 4, 8, 0, 4, 4, 8] : List Nat).getD (HEADER_LENGTH + 0) 0 ^^^ 2 ^ 0)) =
        some (Except.error e)) ∧
      (CompressInput.NoCompress = CompressInput.NoCompress →
        Decoder.uncover_from Except.ok
            (([11, 14, 10, 13, 0, 1, 0, 0, 0, 0, 0, 0, 0, 0, 0, 0, 0, 0, 0, 0, 0, 1,
          0, 0, 0, 0, 0, 0, 0, 0, 0, 0, 0, 0, 0, 0, 4, 8, 0, 4, 4, 8] : List Nat).set (HEADER_LENGTH + 0)
              (([11, 14, 10, 13, 0, 1, 0, 0, 0, 0, 0, 0, 0, 0, 0, 0, 0, 0, 0, 0, 0, 1,
          0, 0, 0, 0, 0, 0, 0, 0, 0, 0, 0, 0, 0, 0, 4, 8, 0, 4, 4, 8] : List Nat).getD (HEADER_LENGTH + 0) 0 ^^^ 2 ^ 0)) =
          some (Except.error (StegError.hashMismatch h1
            (dhash (payloadStream CompressInput.NoCompress (fun l => l) [72]))))) :=
  claim_C7_tamper_detected CompressInput.NoCompress ByteSplitGranularity.FourBits
    (fun l => l) Except.ok (List.replicate 42 0) [72]
    [11, 14, 10, 13, 0, 1, 0, 0, 0, 0, 0, 0, 0, 0, 0, 0, 0, 0, 0, 0, 0, 1, 0,
      0, 0, 0, 0, 0, 0, 0, 0, 0, 0, 0, 0, 0, 4, 8, 0, 4, 4, 8]
    0 0 (by decide) (by decide) (by decide) (by decide) (by decide)

/-- C7 counterexample: flipping the high bit (bit 7) of the first
payload-region carrier byte of the same encoded carrier array changes the
array, yet decode still succeeds and returns the original payload: not every
payload-region carrier-bit flip makes decode fail. -/
theorem claim_C7_counterexample :
    (Encoder.new CompressInput.NoCompress ByteSplitGranularity.FourBits).encode
        (fun l => l) (List.replicate 42 0) [72] =
      Except.ok
        [11, 14, 10, 13, 0, 1, 0, 0, 0, 0, 0, 0, 0, 0, 0, 0, 0, 0, 0, 0, 0, 1, 0,
      0, 0, 0, 0, 0, 0, 0, 0, 0, 0, 0, 0, 0, 4, 8, 0, 4, 4, 8] ∧
    ([11, 14, 10, 13, 0, 1, 0, 0, 0, 0, 0, 0, 0, 0, 0, 0, 0, 0, 0, 0, 0, 1,
          0, 0, 0, 0, 0, 0, 0, 0, 0, 0, 0, 0, 0, 0, 4, 8, 0, 4, 4, 8] : List Nat).set (HEADER_LENGTH + 0)
        (([11, 14, 10, 13, 0, 1, 0, 0, 0, 0, 0, 0, 0, 0, 0, 0, 0, 0, 0, 0, 0, 1,
          0, 0, 0, 0, 0, 0, 0, 0, 0, 0, 0, 0, 0, 0, 4, 8, 0, 4, 4, 8] : List Nat).getD (HEADER_LENGTH + 0) 0 ^^^ 2 ^ 7) ≠
      [11, 14, 10, 13, 0, 1, 0, 0, 0, 0, 0, 0, 0, 0, 0, 0, 0, 0, 0, 0, 0, 1, 0,
      0, 0, 0, 0, 0, 0, 0, 0, 0, 0, 0, 0, 0, 4, 8, 0, 4, 4, 8] ∧
    Decoder.uncover_from Except.ok
        (([11, 14, 10, 13, 0, 1, 0, 0, 0, 0, 0, 0, 0, 0, 0, 0, 0, 0, 0, 0, 0, 1,
          0, 0, 0, 0, 0, 0, 0, 0, 0, 0, 0, 0, 0, 0, 4, 8, 0, 4, 4, 8] : List Nat).set (HEADER_LENGTH + 0)
          (([11, 14, 10, 13, 0, 1, 0, 0, 0, 0, 0, 0, 0, 0, 0, 0, 0, 0, 0, 0, 0, 1,
          0, 0, 0, 0, 0, 0, 0, 0, 0, 0, 0, 0, 0, 0, 4, 8, 0, 4, 4, 8] : List Nat).getD (HEADER_LENGTH + 0) 0 ^^^ 2 ^ 7)) =
      some (Except.ok [72]) := by
  decide

end Steg

